import Mathlib

/-!
Verification of the hextris game-logic engine: a shallow embedding of the
hexagonal coordinate math, piece catalog and rotation, collision detection,
line detection/clearing with special cells, the independent-fall gravity
engine, and the scoring/progression formulas, together with theorems about
the properties claimed in the specification.
-/

namespace Hextris

/-- Axial coordinate: integer pair (q, r) identifying one hex cell. -/
structure AxialCoord where
  q : Int
  r : Int
deriving DecidableEq, Repr

/-- Cube coordinate (x, y, z), used transiently for rotation. -/
structure CubeCoord where
  x : Int
  y : Int
  z : Int
deriving DecidableEq, Repr

/-- Convert axial coordinates to cube coordinates (hexMath.axialToCube). -/
def axialToCube (a : AxialCoord) : CubeCoord :=
  ⟨a.q, a.r, -a.q - a.r⟩

/-- Convert cube coordinates to axial coordinates (hexMath.cubeToAxial). -/
def cubeToAxial (c : CubeCoord) : AxialCoord :=
  ⟨c.x, c.y⟩

/-- Special cell types (types.SpecialCellType). -/
inductive SpecialCellType where
  | bomb
  | multiplier
  | frozen
deriving DecidableEq, Repr

/-- Cell state: empty, or filled with color plus optional special tag,
frozenCleared flag and transient clearing hint (types.CellState).  The
JavaScript optional booleans are modelled with `false` for "absent". -/
inductive CellState where
  | empty : CellState
  | filled (color : String) (special : Option SpecialCellType)
      (frozenCleared : Bool) (clearing : Option Nat) : CellState
deriving DecidableEq, Repr

/-- Whether a cell state is filled (truthiness of `cellState.filled`). -/
def CellState.isFilled : CellState → Bool
  | .empty => false
  | .filled _ _ _ _ => true

/-- Grid state: a JavaScript `Map` from coordinate key to cell state,
modelled as an association list in insertion order with unique keys.
The string key "q,r" is a bijective encoding of the coordinate, so the
map is keyed by the coordinate itself. -/
abbrev GridState : Type := List (AxialCoord × CellState)

/-- Field shape: a JavaScript `Set` of coordinate keys, modelled as a
list of coordinates in insertion order. -/
abbrev FieldShape : Type := List AxialCoord

/-- Lookup in a grid map (JavaScript `Map.get`). -/
def mapGet : GridState → AxialCoord → Option CellState
  | [], _ => none
  | p :: rest, k => if p.1 = k then some p.2 else mapGet rest k

/-- Update or append in a grid map (JavaScript `Map.set`): an existing key
keeps its position, a new key is appended. -/
def mapSet : GridState → AxialCoord → CellState → GridState
  | [], k, v => [(k, v)]
  | p :: rest, k, v => if p.1 = k then (k, v) :: rest else p :: mapSet rest k v

/-- Remove a key from a grid map (JavaScript `Map.delete`). -/
def mapDelete : GridState → AxialCoord → GridState
  | [], _ => []
  | p :: rest, k => if p.1 = k then mapDelete rest k else p :: mapDelete rest k

/-- Keys of a grid map. -/
def gridKeys (g : GridState) : List AxialCoord := g.map Prod.fst

/-- The grid invariant maintained by JavaScript `Map`: keys are unique. -/
def NodupKeys (g : GridState) : Prop := (gridKeys g).Nodup

/-- Generate the rectangular field: for column `col` and row `row`, the
cell is (q, r) with q = col and r = row - ⌊col / 2⌋ (gameModes.generateFieldShape). -/
def generateFieldShape (cols rows : Nat) : FieldShape :=
  (List.range cols).flatMap (fun col =>
    (List.range rows).map (fun row =>
      ⟨(col : Int), (row : Int) - ((col / 2 : Nat) : Int)⟩))

/-- The game's field shape: 11 columns by 20 rows. -/
def FIELD_SHAPE : FieldShape := generateFieldShape 11 20

/-- The gravity test field: 5 columns by 6 rows (lineDetection test). -/
def TEST_FIELD : FieldShape := generateFieldShape 5 6

/-- Piece types: the ten tetrahexes (types.PieceType). -/
inductive PieceType where
  | I_PIECE
  | S_PIECE
  | Z_PIECE
  | L_PIECE
  | J_PIECE
  | T_PIECE
  | P_PIECE
  | U_PIECE
  | O_PIECE
  | Y_PIECE
deriving DecidableEq, Repr, Fintype

/-- Per-type piece metadata (pieces.PIECE_METADATA rows). -/
structure PieceMetadata where
  shape : List AxialCoord
  color : String
  hasCenter : Bool
  rotationStates : Nat
deriving DecidableEq, Repr

/-- Shape of the I piece (vertical bar). -/
def I_SHAPE : List AxialCoord := [⟨0, -1⟩, ⟨0, 1⟩, ⟨0, 2⟩]

/-- Shape of the S piece (horizontal zigzag). -/
def S_SHAPE : List AxialCoord := [⟨-1, 0⟩, ⟨1, -1⟩, ⟨2, -1⟩]

/-- Shape of the Z piece (mirror zigzag). -/
def Z_SHAPE : List AxialCoord := [⟨1, -1⟩, ⟨-1, 0⟩, ⟨-2, 1⟩]

/-- Shape of the L piece. -/
def L_SHAPE : List AxialCoord := [⟨0, -1⟩, ⟨0, -2⟩, ⟨1, 0⟩]

/-- Shape of the J piece (mirror L). -/
def J_SHAPE : List AxialCoord := [⟨0, -1⟩, ⟨0, -2⟩, ⟨-1, 1⟩]

/-- Shape of the T piece (pistol). -/
def T_SHAPE : List AxialCoord := [⟨0, -1⟩, ⟨0, 1⟩, ⟨1, -1⟩]

/-- Shape of the P piece (mirror pistol). -/
def P_SHAPE : List AxialCoord := [⟨0, -1⟩, ⟨0, 1⟩, ⟨-1, 0⟩]

/-- Shape of the U piece (ring around empty center). -/
def U_SHAPE : List AxialCoord := [⟨0, -1⟩, ⟨1, -1⟩, ⟨1, 0⟩, ⟨0, 1⟩]

/-- Shape of the O piece (rhombus). -/
def O_SHAPE : List AxialCoord := [⟨1, -1⟩, ⟨1, 0⟩, ⟨0, 1⟩]

/-- Shape of the Y piece (propeller). -/
def Y_SHAPE : List AxialCoord := [⟨0, -1⟩, ⟨1, 0⟩, ⟨-1, 1⟩]

/-- The piece metadata table (pieces.PIECE_METADATA). -/
def PIECE_METADATA : PieceType → PieceMetadata
  | .I_PIECE => ⟨I_SHAPE, "#06b6d4", true, 3⟩
  | .S_PIECE => ⟨S_SHAPE, "#f97316", true, 3⟩
  | .Z_PIECE => ⟨Z_SHAPE, "#84cc16", true, 3⟩
  | .L_PIECE => ⟨L_SHAPE, "#3b82f6", true, 6⟩
  | .J_PIECE => ⟨J_SHAPE, "#f59e0b", true, 6⟩
  | .T_PIECE => ⟨T_SHAPE, "#8b5cf6", true, 6⟩
  | .P_PIECE => ⟨P_SHAPE, "#ec4899", true, 6⟩
  | .U_PIECE => ⟨U_SHAPE, "#22c55e", false, 6⟩
  | .O_PIECE => ⟨O_SHAPE, "#ef4444", true, 3⟩
  | .Y_PIECE => ⟨Y_SHAPE, "#eab308", true, 6⟩

/-- List of all piece types (pieces.getRandomPieceType order). -/
def allPieceTypes : List PieceType :=
  [.I_PIECE, .S_PIECE, .Z_PIECE, .L_PIECE, .J_PIECE,
   .T_PIECE, .P_PIECE, .U_PIECE, .O_PIECE, .Y_PIECE]

/-- One clockwise 60-degree rotation step on a cube coordinate:
(x, y, z) becomes (-z, -x, -y) (pieces.rotateCoordinate loop body). -/
def rotateCubeOnce (c : CubeCoord) : CubeCoord :=
  ⟨-c.z, -c.x, -c.y⟩

/-- Apply the clockwise cube rotation a number of times. -/
def rotateCubeSteps : CubeCoord → Nat → CubeCoord
  | c, 0 => c
  | c, n + 1 => rotateCubeSteps (rotateCubeOnce c) n

/-- Rotate a single coordinate around the origin by the given number of
60-degree clockwise steps (pieces.rotateCoordinate). -/
def rotateCoordinate (coord : AxialCoord) (steps : Nat) : AxialCoord :=
  cubeToAxial (rotateCubeSteps (axialToCube coord) steps)

/-- Rotate a whole piece shape by `rotationSteps` 60-degree clockwise steps,
normalized to the 0..5 range (pieces.rotatePieceShape).  Steps are already
non-negative here, so the JavaScript double-modulo is a plain `% 6`. -/
def rotatePieceShape (shape : List AxialCoord) (rotationSteps : Nat) : List AxialCoord :=
  let normalizedSteps := rotationSteps % 6
  if normalizedSteps = 0 then shape
  else shape.map (fun offset => rotateCoordinate offset normalizedSteps)

/-- Apply one clockwise rotation step to a shape, `n` times in sequence. -/
def applyRotationSteps (shape : List AxialCoord) : Nat → List AxialCoord
  | 0 => shape
  | n + 1 => rotatePieceShape (applyRotationSteps shape n) 1

/-- Equality of two coordinate lists as sets. -/
def sameCellSet (xs ys : List AxialCoord) : Bool :=
  xs.all (fun c => ys.contains c) && ys.all (fun c => xs.contains c)

/-- Translate every coordinate of a list by a fixed offset. -/
def translateCells (t : AxialCoord) (xs : List AxialCoord) : List AxialCoord :=
  xs.map (fun c => ⟨c.q + t.q, c.r + t.r⟩)

/-- The full occupied offsets of a piece type at rotation 0: the origin if
the piece has a filled center, plus the shape offsets. -/
def pieceCellOffsets (t : PieceType) : List AxialCoord :=
  (if (PIECE_METADATA t).hasCenter then [(⟨0, 0⟩ : AxialCoord)] else []) ++
    (PIECE_METADATA t).shape

/-- Per-type translation that witnesses 180-degree symmetry of the
3-rotation-state pieces: rotating the occupied cells 3 steps and then
translating by this offset reproduces the original occupied cells. -/
def symmetryTranslation : PieceType → AxialCoord
  | .I_PIECE => ⟨0, 1⟩
  | .S_PIECE => ⟨1, -1⟩
  | .Z_PIECE => ⟨-1, 0⟩
  | .O_PIECE => ⟨1, 0⟩
  | _ => ⟨0, 0⟩

/-- Live piece instance (types.Piece). -/
structure Piece where
  type : PieceType
  shape : List AxialCoord
  color : String
  position : AxialCoord
  rotation : Int
  special : Option SpecialCellType
deriving DecidableEq, Repr

/-- JavaScript double-modulo normalization of a rotation count into
0 .. states-1; the JavaScript `%` operator is truncated remainder. -/
def normalizeRotation (rotation : Int) (states : Int) : Int :=
  Int.tmod (Int.tmod rotation states + states) states

/-- All cells occupied by a piece: the center only if the piece type has a
filled center, then the rotated shape offsets added to the piece position
(pieces.getPieceCells). -/
def getPieceCells (piece : Piece) : List AxialCoord :=
  let metadata := PIECE_METADATA piece.type
  let centerCells : List AxialCoord :=
    if metadata.hasCenter then [piece.position] else []
  let normalizedRotation :=
    (normalizeRotation piece.rotation (metadata.rotationStates : Int)).toNat
  let rotatedShape := rotatePieceShape piece.shape normalizedRotation
  centerCells ++ rotatedShape.map (fun offset =>
    ⟨piece.position.q + offset.q, piece.position.r + offset.r⟩)

/-- Rotate a piece by one clockwise step (pieces.rotatePiece). -/
def rotatePiece (piece : Piece) : Piece :=
  { piece with rotation := piece.rotation + 1 }

/-- Scoring constants (scoring.SCORING): combo multipliers for 1..4+
simultaneous lines.  Keys outside 1..4 are never looked up because the
argument is always `min linesCleared 4` with `linesCleared ≥ 1`. -/
def COMBO_MULTIPLIERS : Nat → Nat
  | 1 => 1
  | 2 => 3
  | 3 => 5
  | 4 => 8
  | _ => 0

/-- Cascade multipliers for stages 1..5 (scoring.SCORING), as exact
rationals.  Keys outside 1..5 are never looked up because the argument is
always `min cascadeStage 5`. -/
def CASCADE_MULTIPLIERS : Nat → ℚ
  | 1 => 1
  | 2 => 3 / 2
  | 3 => 2
  | 4 => 5 / 2
  | 5 => 3
  | _ => 0

/-- Score for `linesCleared` simultaneous lines at `currentLevel`
(scoring.calculateScore). -/
def calculateScore (linesCleared currentLevel : Nat) : Nat :=
  if linesCleared = 0 then 0
  else
    let basePoints := 100 * linesCleared
    let comboMultiplier := COMBO_MULTIPLIERS (min linesCleared 4)
    basePoints * comboMultiplier * currentLevel

/-- Score for one cascade stage (scoring.calculateCascadeScore):
the base score times the stage multiplier, floored to an integer. -/
def calculateCascadeScore (linesCleared currentLevel cascadeStage : Nat) : Nat :=
  if linesCleared = 0 then 0
  else
    let baseScore := calculateScore linesCleared currentLevel
    let cascadeMultiplier := CASCADE_MULTIPLIERS (min cascadeStage 5)
    Nat.floor ((baseScore : ℚ) * cascadeMultiplier)

/-- Level from total lines cleared (scoring.calculateLevel). -/
def calculateLevel (totalLinesCleared : Nat) : Nat :=
  min (totalLinesCleared / 10 + 1) 20

/-- Drop speed in milliseconds from the level (scoring.calculateSpeed). -/
def calculateSpeed (level : Nat) : Int :=
  max 100 (1000 - ((level : Int) - 1) * 50)

/-- Reason attached to a rejected piece position (collision.CollisionResult). -/
inductive CollisionReason where
  | outOfBounds
  | overlap
deriving DecidableEq, Repr

/-- Result of a collision check (collision.CollisionResult). -/
inductive CollisionResult where
  | valid
  | invalid (reason : CollisionReason)
deriving DecidableEq, Repr

/-- Whether the grid holds a filled cell at a coordinate
(`cellState && cellState.filled`). -/
def cellIsFilled (grid : GridState) (c : AxialCoord) : Bool :=
  match mapGet grid c with
  | some s => s.isFilled
  | none => false

/-- The early-return loop of collision.isValidPiecePosition over the
occupied cells: the first cell outside the field reports out-of-bounds,
the first filled cell reports overlap. -/
def isValidLoop (grid : GridState) (fieldShape : FieldShape) :
    List AxialCoord → CollisionResult
  | [] => .valid
  | c :: rest =>
    if c ∈ fieldShape then
      if cellIsFilled grid c then .invalid .overlap
      else isValidLoop grid fieldShape rest
    else .invalid .outOfBounds

/-- Check if a piece position is valid: all occupied cells in the field
and all mapped to non-filled grid cells (collision.isValidPiecePosition). -/
def isValidPiecePosition (piece : Piece) (grid : GridState)
    (fieldShape : FieldShape) : CollisionResult :=
  isValidLoop grid fieldShape (getPieceCells piece)

/-- Six neighbor directions in axial coordinates, in source order:
top, top-right, bottom-right, bottom, bottom-left, top-left
(hexMath.AXIAL_DIRECTIONS). -/
def AXIAL_DIRECTIONS : List AxialCoord :=
  [⟨0, -1⟩, ⟨1, -1⟩, ⟨1, 0⟩, ⟨0, 1⟩, ⟨-1, 1⟩, ⟨-1, 0⟩]

/-- Candidate piece for a downward move: r + 1 (movement.moveDown). -/
def moveDownCandidate (piece : Piece) : Piece :=
  { piece with position := ⟨piece.position.q, piece.position.r + 1⟩ }

/-- Move piece down one row, or reject (movement.moveDown). -/
def moveDown (piece : Piece) (grid : GridState) (fieldShape : FieldShape) :
    Option Piece :=
  let newPiece := moveDownCandidate piece
  if isValidPiecePosition newPiece grid fieldShape = .valid then some newPiece
  else none

/-- Candidate piece for a leftward move: q - 1 with an r adjustment of 1
when the destination column is positively odd (JavaScript `newQ % 2 === 1`
uses truncated remainder, so negative odd columns adjust by 0)
(movement.moveLeft). -/
def moveLeftCandidate (piece : Piece) : Piece :=
  let newQ := piece.position.q - 1
  let rAdjust : Int := if Int.tmod newQ 2 = 1 then 1 else 0
  { piece with position := ⟨newQ, piece.position.r + rAdjust⟩ }

/-- Move piece left, or reject (movement.moveLeft). -/
def moveLeft (piece : Piece) (grid : GridState) (fieldShape : FieldShape) :
    Option Piece :=
  let newPiece := moveLeftCandidate piece
  if isValidPiecePosition newPiece grid fieldShape = .valid then some newPiece
  else none

/-- Candidate piece for a rightward move: q + 1 with an r adjustment of -1
when the destination column is even (movement.moveRight). -/
def moveRightCandidate (piece : Piece) : Piece :=
  let newQ := piece.position.q + 1
  let rAdjust : Int := if Int.tmod newQ 2 = 0 then -1 else 0
  { piece with position := ⟨newQ, piece.position.r + rAdjust⟩ }

/-- Move piece right, or reject (movement.moveRight). -/
def moveRight (piece : Piece) (grid : GridState) (fieldShape : FieldShape) :
    Option Piece :=
  let newPiece := moveRightCandidate piece
  if isValidPiecePosition newPiece grid fieldShape = .valid then some newPiece
  else none

/-- Wall-kick candidate list for a rotation: the rotated piece in place,
then the rotated piece shifted by each of the six neighbor directions,
then the rotated piece shifted one row down (movement.rotateWithWallKick). -/
def wallKickCandidates (piece : Piece) : List Piece :=
  let rotated := rotatePiece piece
  rotated ::
    (AXIAL_DIRECTIONS.map (fun d =>
      { rotated with position :=
          ⟨rotated.position.q + d.q, rotated.position.r + d.r⟩ })) ++
    [{ rotated with position :=
        ⟨rotated.position.q, rotated.position.r + 1⟩ }]

/-- Attempt a clockwise rotation with wall kicks: the first valid candidate
wins, otherwise the rotation is rejected (movement.rotateWithWallKick). -/
def rotateWithWallKick (piece : Piece) (grid : GridState)
    (fieldShape : FieldShape) : Option Piece :=
  (wallKickCandidates piece).find?
    (fun cand => isValidPiecePosition cand grid fieldShape = .valid)

/-- The cell directly below a coordinate: same column, next row. -/
def below (c : AxialCoord) : AxialCoord := ⟨c.q, c.r + 1⟩

/-- The 6 hex neighbors of a coordinate, in source order
(lineDetection.getHexNeighbors / specialCells.getHexNeighbors). -/
def getHexNeighbors (c : AxialCoord) : List AxialCoord :=
  [⟨c.q + 1, c.r⟩, ⟨c.q - 1, c.r⟩, ⟨c.q, c.r + 1⟩,
   ⟨c.q, c.r - 1⟩, ⟨c.q + 1, c.r - 1⟩, ⟨c.q - 1, c.r + 1⟩]

/-- Add a coordinate to a JavaScript `Set` modelled as a list: no-op when
already present, append otherwise. -/
def addKey (ks : List AxialCoord) (k : AxialCoord) : List AxialCoord :=
  if k ∈ ks then ks else ks ++ [k]

/-- Filled neighbors of a coordinate that are within the field
(specialCells.getFilledNeighbors). -/
def getFilledNeighbors (coord : AxialCoord) (grid : GridState)
    (fieldShape : FieldShape) : List AxialCoord :=
  (getHexNeighbors coord).filter
    (fun n => decide (n ∈ fieldShape) && cellIsFilled grid n)

/-- Union of the filled field-neighbors of all the bomb cells, deduplicated
in first-seen order (the `cellsToDestroy` set of
specialCells.applyBombExplosions and lineDetection.getBombExplosionCells). -/
def bombDestroySet (grid : GridState) (fieldShape : FieldShape) :
    List AxialCoord → List AxialCoord → List AxialCoord
  | [], acc => acc
  | b :: rest, acc =>
      bombDestroySet grid fieldShape rest
        ((getFilledNeighbors b grid fieldShape).foldl addKey acc)

/-- Cells destroyed by bomb explosions, reported for animation
(lineDetection.getBombExplosionCells). -/
def getBombExplosionCells (grid : GridState) (bombCells : List AxialCoord)
    (fieldShape : FieldShape) : List AxialCoord :=
  if bombCells = [] then []
  else bombDestroySet grid fieldShape bombCells []

/-- Apply bomb explosions: delete every filled field-neighbor of every
bomb cell from the grid (specialCells.applyBombExplosions). -/
def applyBombExplosions (grid : GridState) (bombCells : List AxialCoord)
    (fieldShape : FieldShape) : GridState :=
  if bombCells = [] then grid
  else (bombDestroySet grid fieldShape bombCells []).foldl mapDelete grid

/-- Process frozen cells in a clear batch, in batch order: a filled cell
that is frozen and not yet frozenCleared is rewritten to a normal filled
cell with frozenCleared set; any other filled cell is collected for
removal; non-filled cells are skipped (specialCells.processFrozenCells). -/
def processFrozenCells (grid : GridState) :
    List AxialCoord → List AxialCoord × GridState
  | [] => ([], grid)
  | c :: rest =>
    match mapGet grid c with
    | some (.filled color special fc _clearing) =>
      if special = some .frozen ∧ fc = false then
        processFrozenCells (mapSet grid c (.filled color none true none)) rest
      else
        let result := processFrozenCells grid rest
        (c :: result.1, result.2)
    | _ => processFrozenCells grid rest

/-- Whether any of the given cells is a filled multiplier cell
(specialCells.hasMultiplierCell). -/
def hasMultiplierCell (grid : GridState) (cells : List AxialCoord) : Bool :=
  cells.any (fun c =>
    match mapGet grid c with
    | some (.filled _ (some .multiplier) _ _) => true
    | _ => false)

/-- The bomb cells among a list of coordinates
(specialCells.getBombCells). -/
def getBombCells (grid : GridState) (cells : List AxialCoord) :
    List AxialCoord :=
  cells.filter (fun c =>
    match mapGet grid c with
    | some (.filled _ (some .bomb) _ _) => true
    | _ => false)

/-- Eligible cells for special-cell promotion: filled, not already special
(specialCells.getEligibleCells). -/
def getEligibleCells (grid : GridState) (fieldShape : FieldShape) :
    List AxialCoord :=
  fieldShape.filter (fun k =>
    match mapGet grid k with
    | some (.filled _ none _ _) => true
    | _ => false)

/-- Number of special cells of one type on the field
(specialCells.countSpecialCells). -/
def countSpecialCells (grid : GridState) (fieldShape : FieldShape)
    (t : SpecialCellType) : Nat :=
  (fieldShape.filter (fun k =>
    match mapGet grid k with
    | some (.filled _ (some s) _ _) => s = t
    | _ => false)).length

/-- Spawn chance of a special cell type at a level
(specialCells.getSpawnChance), with the float constants as exact
rationals. -/
def getSpawnChance (t : SpecialCellType) (level : Nat) : ℚ :=
  match t with
  | .bomb => min (0.05 + ((level : ℚ) - 1) * 0.005) 0.15
  | .multiplier => min (0.03 + ((level : ℚ) - 1) * 0.004) 0.12
  | .frozen => 0.025

/-- Maximum number of special cells of one type allowed on the field
(specialCells.getMaxCount). -/
def getMaxCount : SpecialCellType → Nat
  | .bomb => 3
  | .multiplier => 3
  | .frozen => 1

/-- The capped spawn chance of one special type: 0 when the type is at
its on-field maximum, its level-scaled chance otherwise (the chance
computation of specialCells.maybeSpawnSpecialCell). -/
def cappedSpawnChance (grid : GridState) (fieldShape : FieldShape)
    (level : Nat) (t : SpecialCellType) : ℚ :=
  if getMaxCount t ≤ countSpecialCells grid fieldShape t then 0
  else getSpawnChance t level

/-- Special-cell promotion after a settle
(specialCells.maybeSpawnSpecialCell).  The three random draws are explicit
parameters: `spawnRoll` and `typeRoll01` are the two uniform [0,1) draws
and `randomIndex` is the already-floored eligible-cell index. -/
def maybeSpawnSpecialCell (grid : GridState) (fieldShape : FieldShape)
    (level : Nat) (spawnRoll typeRoll01 : ℚ) (randomIndex : Nat) : GridState :=
  let eligibleCells := getEligibleCells grid fieldShape
  if eligibleCells = [] then grid
  else
    let bombChance := cappedSpawnChance grid fieldShape level .bomb
    let multiplierChance := cappedSpawnChance grid fieldShape level .multiplier
    let frozenChance := cappedSpawnChance grid fieldShape level .frozen
    let totalChance := bombChance + multiplierChance + frozenChance
    if totalChance = 0 then grid
    else if totalChance ≤ spawnRoll then grid
    else
      let typeRoll := typeRoll01 * totalChance
      let selectedType : SpecialCellType :=
        if typeRoll < bombChance then .bomb
        else if typeRoll < bombChance + multiplierChance then .multiplier
        else .frozen
      match eligibleCells.get? randomIndex with
      | none => grid
      | some selectedKey =>
        match mapGet grid selectedKey with
        | some (.filled color _special fc clr) =>
            mapSet grid selectedKey (.filled color (some selectedType) fc clr)
        | _ => grid

/-- The two clearable line directions (lineDetection.LineDirection). -/
inductive LineDirection where
  | diagonalRight
  | diagonalLeft
deriving DecidableEq, Repr

/-- The line constant of a coordinate in a direction: r for diagonalRight,
q + r for diagonalLeft (lineDetection.getLineConstant). -/
def getLineConstant (coord : AxialCoord) : LineDirection → Int
  | .diagonalRight => coord.r
  | .diagonalLeft => coord.q + coord.r

/-- A complete line: direction plus its field cells (lineDetection.Line). -/
structure Line where
  direction : LineDirection
  cells : List AxialCoord
deriving DecidableEq, Repr

/-- Add an integer to a list acting as an insertion-ordered set. -/
def addConstant (ks : List Int) (k : Int) : List Int :=
  if k ∈ ks then ks else ks ++ [k]

/-- The distinct line constants of a direction over the field, in
first-seen order (the key order of the `lineGroups` map of
lineDetection.detectLines). -/
def lineConstants (dir : LineDirection) (fieldShape : FieldShape) : List Int :=
  fieldShape.foldl (fun acc c => addConstant acc (getLineConstant c dir)) []

/-- The field cells sharing a line constant, in field order (the group
lists of the `lineGroups` map of lineDetection.detectLines). -/
def lineGroup (dir : LineDirection) (fieldShape : FieldShape) (k : Int) :
    List AxialCoord :=
  fieldShape.filter (fun c => getLineConstant c dir = k)

/-- Detect all complete lines: for each direction and each line constant,
the group is a line when it is non-empty and every cell is filled
(lineDetection.detectLines). -/
def detectLines (grid : GridState) (fieldShape : FieldShape) : List Line :=
  ([LineDirection.diagonalRight, LineDirection.diagonalLeft]).flatMap
    (fun dir =>
      (lineConstants dir fieldShape).filterMap (fun k =>
        let cells := lineGroup dir fieldShape k
        if cells ≠ [] ∧ cells.all (fun c => cellIsFilled grid c) then
          some ⟨dir, cells⟩
        else none))

/-- Result of clearing a batch of lines (part of
lineDetection.LineClearStage). -/
structure ClearLinesResult where
  gridAfterLineClear : GridState
  bombExplosionCells : List AxialCoord
  gridAfterBombs : GridState
  hasMultiplier : Bool

/-- Clear a batch of lines: process frozen cells, remove the collected
cells, then resolve bomb explosions on the grid after line removal
(lineDetection.clearLines, special-cell version). -/
def clearLines (grid : GridState) (lines : List Line)
    (fieldShape : FieldShape) : ClearLinesResult :=
  let allCellsToCheck := lines.flatMap (fun l => l.cells)
  let hasMultiplier := hasMultiplierCell grid allCellsToCheck
  let pfc := processFrozenCells grid allCellsToCheck
  let cellsToRemove := pfc.1
  let updatedGrid := pfc.2
  let bombCells := getBombCells updatedGrid cellsToRemove
  let gridAfterLineClear := cellsToRemove.foldl mapDelete updatedGrid
  let bombExplosionCells :=
    getBombExplosionCells gridAfterLineClear bombCells fieldShape
  let gridAfterBombs :=
    applyBombExplosions gridAfterLineClear bombCells fieldShape
  ⟨gridAfterLineClear, bombExplosionCells, gridAfterBombs, hasMultiplier⟩

/-- First pass of grounded classification: a filled cell with no field
cell below it is grounded (lineDetection.classifyGroundedAndFloating,
independent-fall version, first loop). -/
def groundedFloorPass (fieldShape : FieldShape) :
    List (AxialCoord × CellState) → List AxialCoord → List AxialCoord
  | [], g => g
  | p :: rest, g =>
      groundedFloorPass fieldShape rest
        (if below p.1 ∈ fieldShape then g else addKey g p.1)

/-- One propagation pass: a not-yet-grounded filled cell whose cell
directly below is grounded becomes grounded; propagation is strictly
vertical (lineDetection.classifyGroundedAndFloating, second loop body). -/
def groundedPropagatePass :
    List (AxialCoord × CellState) → List AxialCoord → List AxialCoord
  | [], g => g
  | p :: rest, g =>
      groundedPropagatePass rest
        (if p.1 ∈ g then g else if below p.1 ∈ g then g ++ [p.1] else g)

/-- Iterate propagation passes until a pass changes nothing
(lineDetection.classifyGroundedAndFloating, `while (changed)` loop),
bounded by fuel. -/
def groundedIter (cells : List (AxialCoord × CellState)) :
    Nat → List AxialCoord → List AxialCoord
  | 0, g => g
  | fuel + 1, g =>
      let g' := groundedPropagatePass cells g
      if g' = g then g else groundedIter cells fuel g'

/-- The grounded keys of a list of filled cells: floor pass followed by
propagation to a fixed point.  `cells.length + 1` passes always reach the
fixed point because every changing pass strictly grows the set. -/
def classifyGrounded (cells : List (AxialCoord × CellState))
    (fieldShape : FieldShape) : List AxialCoord :=
  groundedIter cells (cells.length + 1) (groundedFloorPass fieldShape cells [])

/-- Grounded and floating keys of a list of filled cells
(lineDetection.classifyGroundedAndFloating, independent-fall version). -/
def classifyGroundedAndFloating (cells : List (AxialCoord × CellState))
    (fieldShape : FieldShape) : List AxialCoord × List AxialCoord :=
  let grounded := classifyGrounded cells fieldShape
  (grounded, (cells.map Prod.fst).filter (fun k => k ∉ grounded))

/-- Insert a cell into a list sorted by descending row. -/
def insertByRDesc (p : AxialCoord × CellState) :
    List (AxialCoord × CellState) → List (AxialCoord × CellState)
  | [] => [p]
  | q :: rest =>
      if q.1.r ≤ p.1.r then p :: q :: rest else q :: insertByRDesc p rest

/-- Sort cells by descending row, so lower cells are processed first
(the `sortedFloatingCells` sort of lineDetection.applyGravityStep). -/
def sortByRDesc : List (AxialCoord × CellState) → List (AxialCoord × CellState)
  | [] => []
  | p :: rest => insertByRDesc p (sortByRDesc rest)

/-- Process the floating cells bottom-to-top: each cell independently
moves down one row when the target is in the field and unoccupied,
otherwise it stays; the flag reports whether any cell moved
(lineDetection.applyGravityStep, independent-fall version, main loop). -/
def processFloating (fieldShape : FieldShape) :
    List (AxialCoord × CellState) → GridState → List AxialCoord →
    GridState × List AxialCoord × Bool
  | [], ng, occ => (ng, occ, false)
  | (c, s) :: rest, ng, occ =>
    let target := below c
    if target ∈ fieldShape ∧ target ∉ occ then
      let result := processFloating fieldShape rest (mapSet ng target s) (addKey occ target)
      (result.1, result.2.1, true)
    else
      processFloating fieldShape rest (mapSet ng c s) (addKey occ c)

/-- Filled cells of a grid, in entry order (the `filledCells` collection
of lineDetection.applyGravityStep). -/
def filledCellsOf (grid : GridState) : List (AxialCoord × CellState) :=
  grid.filter (fun p => p.2.isFilled)

/-- Grounded keys of a grid's filled cells (the `groundedKeys` result of
classifyGroundedAndFloating inside applyGravityStep). -/
def groundedKeysOf (grid : GridState) (fieldShape : FieldShape) :
    List AxialCoord :=
  classifyGrounded (filledCellsOf grid) fieldShape

/-- Floating keys of a grid's filled cells: filled keys that are not
grounded (the `floating` result of classifyGroundedAndFloating). -/
def floatingKeysOf (grid : GridState) (fieldShape : FieldShape) :
    List AxialCoord :=
  ((filledCellsOf grid).map Prod.fst).filter
    (fun k => k ∉ groundedKeysOf grid fieldShape)

/-- The floating filled cells of a grid (the `floatingCells` list of
applyGravityStep). -/
def floatingCellsOf (grid : GridState) (fieldShape : FieldShape) :
    List (AxialCoord × CellState) :=
  (filledCellsOf grid).filter (fun p => p.1 ∈ floatingKeysOf grid fieldShape)

/-- The grounded filled cells of a grid (the `groundedCells` list of
applyGravityStep). -/
def groundedCellsOf (grid : GridState) (fieldShape : FieldShape) :
    List (AxialCoord × CellState) :=
  (filledCellsOf grid).filter (fun p => p.1 ∈ groundedKeysOf grid fieldShape)

/-- The new grid seeded with the grounded cells (the `newGrid` build loop
of applyGravityStep). -/
def baseGridOf (grid : GridState) (fieldShape : FieldShape) : GridState :=
  (groundedCellsOf grid fieldShape).foldl (fun g p => mapSet g p.1 p.2) []

/-- One gravity step: classify grounded and floating cells, keep the
grounded cells, and let every floating cell (bottom-to-top) fall
independently by one row when possible
(lineDetection.applyGravityStep, independent-fall version). -/
def applyGravityStep (grid : GridState) (fieldShape : FieldShape) :
    GridState × Bool :=
  if filledCellsOf grid = [] then (grid, false)
  else if floatingCellsOf grid fieldShape = [] then (grid, false)
  else
    let result := processFloating fieldShape
      (sortByRDesc (floatingCellsOf grid fieldShape))
      (baseGridOf grid fieldShape) (groundedKeysOf grid fieldShape)
    (result.1, result.2.2)

/-- Apply gravity steps until nothing moves, bounded by fuel (the
`applyGravityUntilSettled` helper of the gravity tests). -/
def applyGravityUntilSettled :
    Nat → GridState → FieldShape → GridState
  | 0, grid, _ => grid
  | fuel + 1, grid, fieldShape =>
    let st := applyGravityStep grid fieldShape
    if st.2 then applyGravityUntilSettled fuel st.1 fieldShape else grid

/-- The batch of cells of a list of lines, concatenated in line order
(the `allCellsToCheck` collection of lineDetection.clearLines). -/
def linesBatch (lines : List Line) : List AxialCoord :=
  lines.flatMap (fun l => l.cells)

/-- The bomb cells that clearing a batch of lines removes: the cells
collected for removal after frozen processing that hold a filled bomb. -/
def clearLinesBombCells (grid : GridState) (lines : List Line) :
    List AxialCoord :=
  getBombCells (processFrozenCells grid (linesBatch lines)).2
    (processFrozenCells grid (linesBatch lines)).1

/-- Whether a cell state is a frozen cell that has not yet absorbed a
clear (special = frozen and frozenCleared unset). -/
def CellState.isFreshFrozen : CellState → Bool
  | .filled _ (some .frozen) false _ => true
  | _ => false

/-- Combo multiplier table as written in the specification. -/
def specComboMultiplier : Nat → Nat
  | 1 => 1
  | 2 => 3
  | 3 => 5
  | 4 => 8
  | _ => 0

/-- Cascade multiplier table as written in the specification. -/
def specCascadeMultiplier : Nat → ℚ
  | 1 => 1
  | 2 => 1.5
  | 3 => 2
  | 4 => 2.5
  | 5 => 3
  | _ => 0

/-- Cascade stage score as written in the specification:
floor(100 · n · comboMultiplier(min(n,4)) · level · cascadeMultiplier(min(stage,5))). -/
def specCascadeScore (n level stage : Nat) : Nat :=
  Nat.floor
    ((100 * (n : ℚ) * (specComboMultiplier (min n 4) : ℚ) * (level : ℚ)) *
      specCascadeMultiplier (min stage 5))

/-- The first occupied cell that violates validity (outside the field or
mapped to a filled cell), in occupied-cell enumeration order. -/
def firstInvalidCell (grid : GridState) (fieldShape : FieldShape)
    (cells : List AxialCoord) : Option AxialCoord :=
  cells.find? (fun c => !(decide (c ∈ fieldShape) && !cellIsFilled grid c))

/-- A normal filled red cell, used by concrete test scenarios. -/
def redCell : CellState := .filled "#ff0000" none false none

/-- A fresh frozen blue cell, used by concrete test scenarios. -/
def frozenCell : CellState := .filled "#00f" (some .frozen) false none

/-- Test grid with every key of the 5-by-6 test field present, one filled
floating cell at (2, 0) and every other cell an explicit Empty entry. -/
def fullKeyGrid : GridState :=
  TEST_FIELD.map (fun k => (k, if k = ⟨2, 0⟩ then redCell else .empty))

/-- Test grid for two crossing complete lines on the 5-by-6 test field
(diagonalRight r = 1 and diagonalLeft q + r = 3) with a fresh frozen cell
at their intersection (2, 1). -/
def crossingLinesGrid : GridState :=
  ([⟨0, 1⟩, ⟨1, 1⟩, ⟨2, 1⟩, ⟨3, 1⟩, ⟨4, 1⟩,
    ⟨0, 3⟩, ⟨1, 2⟩, ⟨3, 0⟩, ⟨4, -1⟩] : List AxialCoord).map
    (fun k => (k, if k = ⟨2, 1⟩ then frozenCell else redCell))

/-- Test grid for a single complete line on the 5-by-6 test field
(diagonalRight r = 1) with a fresh frozen cell at (2, 1). -/
def singleLineGrid : GridState :=
  ([⟨0, 1⟩, ⟨1, 1⟩, ⟨2, 1⟩, ⟨3, 1⟩, ⟨4, 1⟩] : List AxialCoord).map
    (fun k => (k, if k = ⟨2, 1⟩ then frozenCell else redCell))

/-- A concrete I piece at the top of the test field, for witnesses. -/
def testPiece : Piece :=
  ⟨.I_PIECE, I_SHAPE, "#06b6d4", ⟨2, 0⟩, 0, none⟩

theorem COMBO_MULTIPLIERS_eq_spec (m : Nat) :
    COMBO_MULTIPLIERS m = specComboMultiplier m := by
  rcases m with _ | _ | _ | _ | _ <;> rfl

theorem CASCADE_MULTIPLIERS_eq_spec (m : Nat) :
    CASCADE_MULTIPLIERS m = specCascadeMultiplier m := by
  rcases m with _ | _ | _ | _ | _ | _ <;> norm_num [CASCADE_MULTIPLIERS, specCascadeMultiplier]

/-- C1 counterexample: the I piece has rotationStates = 3, but applying
one clockwise rotation step 3 times to its shape does not reproduce the
original shape as a set of offsets (it yields the bar shifted one cell). -/
theorem c1_rotation_closure_counterexample :
    (PIECE_METADATA PieceType.I_PIECE).rotationStates = 3 ∧
    sameCellSet
      (applyRotationSteps (PIECE_METADATA PieceType.I_PIECE).shape 3)
      (PIECE_METADATA PieceType.I_PIECE).shape = false := by
  constructor
  · rfl
  · decide

/-- C1 (amended): for every piece type, applying one clockwise rotation
step 6 times reproduces the shape exactly; applying it rotationStates
times reproduces the occupied cells (center included when present) only
up to a fixed per-type translation; and for the types with
rotationStates = 6 the closure at rotationStates is exact. -/
theorem c1_rotation_closure :
    ∀ t : PieceType,
      sameCellSet (applyRotationSteps (PIECE_METADATA t).shape 6)
        (PIECE_METADATA t).shape = true ∧
      sameCellSet
        (translateCells (symmetryTranslation t)
          (applyRotationSteps (pieceCellOffsets t)
            (PIECE_METADATA t).rotationStates))
        (pieceCellOffsets t) = true ∧
      ((PIECE_METADATA t).rotationStates = 6 →
        sameCellSet
          (applyRotationSteps (PIECE_METADATA t).shape
            (PIECE_METADATA t).rotationStates)
          (PIECE_METADATA t).shape = true) := by
  decide

/-- C1 witness: the amended claim instantiated at the L piece, whose
rotation closure at rotationStates = 6 is exact. -/
theorem c1_rotation_closure_witness :
    sameCellSet
      (applyRotationSteps (PIECE_METADATA PieceType.L_PIECE).shape
        (PIECE_METADATA PieceType.L_PIECE).rotationStates)
      (PIECE_METADATA PieceType.L_PIECE).shape = true :=
  (c1_rotation_closure PieceType.L_PIECE).2.2 rfl

/-- C6: the cascade stage score equals
floor(100 · n · comboMultiplier(min(n,4)) · level · cascadeMultiplier(min(stage,5)))
for n, level, stage ≥ 1; calculateCascadeScore 2 3 2 = 2700; and the
result is 0 when no lines cleared. -/
theorem c6_cascade_score :
    (∀ n level stage, 1 ≤ n → 1 ≤ level → 1 ≤ stage →
      calculateCascadeScore n level stage = specCascadeScore n level stage) ∧
    calculateCascadeScore 2 3 2 = 2700 ∧
    (∀ level stage, calculateCascadeScore 0 level stage = 0) := by
  refine ⟨?_, ?_, ?_⟩
  · intro n level stage hn _ _
    have hn0 : ¬ n = 0 := by omega
    simp only [calculateCascadeScore, calculateScore, specCascadeScore,
      if_neg hn0, CASCADE_MULTIPLIERS_eq_spec, COMBO_MULTIPLIERS_eq_spec]
    congr 1
    push_cast
    ring
  · norm_num [calculateCascadeScore, calculateScore,
      COMBO_MULTIPLIERS, CASCADE_MULTIPLIERS]
  · intro level stage
    simp [calculateCascadeScore]

/-- C6 witness: the formula equality instantiated at n = 2, level = 3,
stage = 2. -/
theorem c6_cascade_score_witness :
    calculateCascadeScore 2 3 2 = specCascadeScore 2 3 2 :=
  c6_cascade_score.1 2 3 2 (by norm_num) (by norm_num) (by norm_num)

/-- C8: the level is min(⌊n/10⌋ + 1, 20), non-decreasing in n and capped
at 20; the speed is max(100, 1000 - (L-1)·50) for L ≥ 1, non-increasing
in the level and floored at 100. -/
theorem c8_level_speed :
    (∀ n, calculateLevel n = min (n / 10 + 1) 20) ∧
    (∀ n m, n ≤ m → calculateLevel n ≤ calculateLevel m) ∧
    (∀ n, calculateLevel n ≤ 20) ∧
    (∀ L, 1 ≤ L → calculateSpeed L = max 100 (1000 - ((L : Int) - 1) * 50)) ∧
    (∀ L M, 1 ≤ L → L ≤ M → calculateSpeed M ≤ calculateSpeed L) ∧
    (∀ L, 1 ≤ L → 100 ≤ calculateSpeed L) := by
  refine ⟨fun n => rfl, ?_, ?_, fun L _ => rfl, ?_, ?_⟩
  · intro n m h
    unfold calculateLevel
    have : n / 10 ≤ m / 10 := Nat.div_le_div_right h
    omega
  · intro n
    unfold calculateLevel
    omega
  · intro L M _ hLM
    unfold calculateSpeed
    have h50 : 1000 - ((M : Int) - 1) * 50 ≤ 1000 - ((L : Int) - 1) * 50 := by
      have : (L : Int) ≤ (M : Int) := by exact_mod_cast hLM
      nlinarith
    exact max_le_max (le_refl 100) h50
  · intro L _
    unfold calculateSpeed
    exact le_max_left _ _

/-- C8 witness: the speed formula and bounds instantiated at levels 1
and 2. -/
theorem c8_level_speed_witness :
    calculateSpeed 1 = max 100 (1000 - ((1 : Int) - 1) * 50) ∧
    calculateSpeed 2 ≤ calculateSpeed 1 ∧
    100 ≤ calculateSpeed 2 :=
  ⟨c8_level_speed.2.2.2.1 1 (by norm_num),
   c8_level_speed.2.2.2.2.1 1 2 (by norm_num) (by norm_num),
   c8_level_speed.2.2.2.2.2 2 (by norm_num)⟩

theorem isValidLoop_valid_iff (grid : GridState) (fieldShape : FieldShape) :
    ∀ cells : List AxialCoord,
      isValidLoop grid fieldShape cells = .valid ↔
        ∀ c ∈ cells, c ∈ fieldShape ∧ cellIsFilled grid c = false := by
  intro cells
  induction cells with
  | nil => simp [isValidLoop]
  | cons c rest ih =>
    unfold isValidLoop
    by_cases hf : c ∈ fieldShape
    · by_cases hfill : cellIsFilled grid c = true
      · simp [hf, hfill]
      · simp only [Bool.not_eq_true] at hfill
        simp [hf, hfill, ih]
    · simp [hf]

theorem isValidLoop_firstInvalid (grid : GridState) (fieldShape : FieldShape) :
    ∀ cells : List AxialCoord,
      isValidLoop grid fieldShape cells =
        (match firstInvalidCell grid fieldShape cells with
         | none => CollisionResult.valid
         | some c =>
             if c ∈ fieldShape then CollisionResult.invalid .overlap
             else CollisionResult.invalid .outOfBounds) := by
  intro cells
  induction cells with
  | nil => rfl
  | cons c rest ih =>
    unfold isValidLoop firstInvalidCell
    simp only [List.find?_cons]
    by_cases hf : c ∈ fieldShape
    · by_cases hfill : cellIsFilled grid c = true
      · simp [hf, hfill]
      · simp only [Bool.not_eq_true] at hfill
        unfold firstInvalidCell at ih
        simpa [hf, hfill] using ih
    · simp [hf]

/-- C9: a piece position is valid iff every occupied cell is a field
member mapped to a non-filled grid cell; a rejection reports the reason
of the first failing cell in enumeration order (out-of-bounds when it is
outside the field, overlap when it is filled); every movement primitive
rejects with `none` exactly when its candidate is invalid, and a rotation
rejects exactly when all wall-kick candidates are invalid. -/
theorem c9_collision_validity :
    (∀ piece grid fieldShape,
      isValidPiecePosition piece grid fieldShape = .valid ↔
        ∀ c ∈ getPieceCells piece, c ∈ fieldShape ∧ cellIsFilled grid c = false) ∧
    (∀ piece grid fieldShape,
      isValidPiecePosition piece grid fieldShape =
        (match firstInvalidCell grid fieldShape (getPieceCells piece) with
         | none => CollisionResult.valid
         | some c =>
             if c ∈ fieldShape then CollisionResult.invalid .overlap
             else CollisionResult.invalid .outOfBounds)) ∧
    (∀ piece grid fieldShape,
      moveDown piece grid fieldShape = none ↔
        ¬ isValidPiecePosition (moveDownCandidate piece) grid fieldShape = .valid) ∧
    (∀ piece grid fieldShape,
      moveLeft piece grid fieldShape = none ↔
        ¬ isValidPiecePosition (moveLeftCandidate piece) grid fieldShape = .valid) ∧
    (∀ piece grid fieldShape,
      moveRight piece grid fieldShape = none ↔
        ¬ isValidPiecePosition (moveRightCandidate piece) grid fieldShape = .valid) ∧
    (∀ piece grid fieldShape,
      rotateWithWallKick piece grid fieldShape = none ↔
        ∀ cand ∈ wallKickCandidates piece,
          ¬ isValidPiecePosition cand grid fieldShape = .valid) := by
  refine ⟨?_, ?_, ?_, ?_, ?_, ?_⟩
  · intro piece grid fieldShape
    exact isValidLoop_valid_iff grid fieldShape (getPieceCells piece)
  · intro piece grid fieldShape
    exact isValidLoop_firstInvalid grid fieldShape (getPieceCells piece)
  · intro piece grid fieldShape
    unfold moveDown
    by_cases h : isValidPiecePosition (moveDownCandidate piece) grid fieldShape = .valid <;>
      simp [h]
  · intro piece grid fieldShape
    unfold moveLeft
    by_cases h : isValidPiecePosition (moveLeftCandidate piece) grid fieldShape = .valid <;>
      simp [h]
  · intro piece grid fieldShape
    unfold moveRight
    by_cases h : isValidPiecePosition (moveRightCandidate piece) grid fieldShape = .valid <;>
      simp [h]
  · intro piece grid fieldShape
    unfold rotateWithWallKick
    rw [List.find?_eq_none]
    constructor
    · intro h cand hc hv
      have := h cand hc
      simp [hv] at this
    · intro h cand hc
      simpa using h cand hc

theorem mapGet_cons (p : AxialCoord × CellState) (rest : GridState)
    (k : AxialCoord) :
    mapGet (p :: rest) k = if p.1 = k then some p.2 else mapGet rest k := rfl

theorem mapSet_cons (p : AxialCoord × CellState) (rest : GridState)
    (k : AxialCoord) (v : CellState) :
    mapSet (p :: rest) k v =
      if p.1 = k then (k, v) :: rest else p :: mapSet rest k v := rfl

theorem mapDelete_cons (p : AxialCoord × CellState) (rest : GridState)
    (k : AxialCoord) :
    mapDelete (p :: rest) k =
      if p.1 = k then mapDelete rest k else p :: mapDelete rest k := rfl

theorem mapGet_mapSet_self (g : GridState) (k : AxialCoord) (v : CellState) :
    mapGet (mapSet g k v) k = some v := by
  induction g with
  | nil => simp [mapSet, mapGet]
  | cons p rest ih =>
    rw [mapSet_cons]
    by_cases h : p.1 = k
    · rw [if_pos h, mapGet_cons, if_pos rfl]
    · rw [if_neg h, mapGet_cons, if_neg h]
      exact ih

theorem mapGet_mapSet_ne (g : GridState) (k k' : AxialCoord) (v : CellState)
    (h : k' ≠ k) : mapGet (mapSet g k v) k' = mapGet g k' := by
  have h' : ¬ (k = k') := fun e => h e.symm
  induction g with
  | nil =>
    show mapGet [(k, v)] k' = mapGet [] k'
    rw [mapGet_cons, if_neg h']
  | cons p rest ih =>
    rw [mapSet_cons]
    by_cases hp : p.1 = k
    · rw [if_pos hp, mapGet_cons, mapGet_cons, if_neg h']
      rw [hp] at *
      rw [if_neg h']
    · rw [if_neg hp, mapGet_cons, mapGet_cons]
      by_cases hp' : p.1 = k'
      · rw [if_pos hp', if_pos hp']
      · rw [if_neg hp', if_neg hp']
        exact ih

theorem mapGet_mapDelete_self (g : GridState) (k : AxialCoord) :
    mapGet (mapDelete g k) k = none := by
  induction g with
  | nil => simp [mapDelete, mapGet]
  | cons p rest ih =>
    rw [mapDelete_cons]
    by_cases h : p.1 = k
    · rw [if_pos h]
      exact ih
    · rw [if_neg h, mapGet_cons, if_neg h]
      exact ih

theorem mapGet_mapDelete_ne (g : GridState) (k k' : AxialCoord)
    (h : k' ≠ k) : mapGet (mapDelete g k) k' = mapGet g k' := by
  induction g with
  | nil => rfl
  | cons p rest ih =>
    rw [mapDelete_cons]
    by_cases hp : p.1 = k
    · rw [if_pos hp, mapGet_cons, ih, if_neg]
      rw [hp]
      exact fun e => h e.symm
    · rw [if_neg hp, mapGet_cons, mapGet_cons, ih]

theorem mapGet_foldl_mapDelete (rm : List AxialCoord) :
    ∀ (g : GridState) (k : AxialCoord),
      mapGet (rm.foldl mapDelete g) k =
        if k ∈ rm then none else mapGet g k := by
  induction rm with
  | nil => intro g k; simp
  | cons d rest ih =>
    intro g k
    by_cases hd : k = d
    · subst hd
      by_cases hr : k ∈ rest
      · simp [List.foldl_cons, ih, hr]
      · simp [List.foldl_cons, ih, hr, mapGet_mapDelete_self]
    · by_cases hr : k ∈ rest
      · simp [List.foldl_cons, ih, hr, hd]
      · simp [List.foldl_cons, ih, hr, hd, mapGet_mapDelete_ne _ _ _ hd]

theorem mem_addKey (acc : List AxialCoord) (k x : AxialCoord) :
    x ∈ addKey acc k ↔ x ∈ acc ∨ x = k := by
  unfold addKey
  by_cases h : k ∈ acc
  · simp only [if_pos h]
    constructor
    · exact Or.inl
    · rintro (hx | rfl)
      · exact hx
      · exact h
  · simp [if_neg h]

theorem mem_foldl_addKey (l : List AxialCoord) :
    ∀ (acc : List AxialCoord) (x : AxialCoord),
      x ∈ l.foldl addKey acc ↔ x ∈ acc ∨ x ∈ l := by
  induction l with
  | nil => intro acc x; simp
  | cons a rest ih =>
    intro acc x
    rw [List.foldl_cons, ih, mem_addKey, List.mem_cons]
    tauto

theorem mem_bombDestroySet (grid : GridState) (fieldShape : FieldShape) :
    ∀ (bombs acc : List AxialCoord) (x : AxialCoord),
      x ∈ bombDestroySet grid fieldShape bombs acc ↔
        x ∈ acc ∨ ∃ b ∈ bombs, x ∈ getFilledNeighbors b grid fieldShape := by
  intro bombs
  induction bombs with
  | nil => intro acc x; simp [bombDestroySet]
  | cons b rest ih =>
    intro acc x
    unfold bombDestroySet
    rw [ih, mem_foldl_addKey]
    constructor
    · rintro ((hx | hn) | ⟨b', hb', hn⟩)
      · exact Or.inl hx
      · exact Or.inr ⟨b, List.mem_cons_self b rest, hn⟩
      · exact Or.inr ⟨b', List.mem_cons_of_mem b hb', hn⟩
    · rintro (hx | ⟨b', hb', hn⟩)
      · exact Or.inl (Or.inl hx)
      · rcases List.mem_cons.mp hb' with rfl | hb'
        · exact Or.inl (Or.inr hn)
        · exact Or.inr ⟨b', hb', hn⟩

theorem mem_getFilledNeighbors (b x : AxialCoord) (grid : GridState)
    (fieldShape : FieldShape) :
    x ∈ getFilledNeighbors b grid fieldShape ↔
      x ∈ getHexNeighbors b ∧ x ∈ fieldShape ∧ cellIsFilled grid x = true := by
  simp [getFilledNeighbors, List.mem_filter, and_assoc]

/-- C5: within clearLines, a cell is removed by the bomb phase exactly
when it is in the reported explosion set, and the reported explosion set
is exactly the filled field-neighbors (evaluated on the grid after line
removal) of the bomb cells among the removed cells. -/
theorem c5_bomb_explosions :
    ∀ grid lines (fieldShape : FieldShape),
      (∀ k, mapGet (clearLines grid lines fieldShape).gridAfterBombs k =
        (if k ∈ (clearLines grid lines fieldShape).bombExplosionCells then none
         else mapGet (clearLines grid lines fieldShape).gridAfterLineClear k)) ∧
      (∀ k, k ∈ (clearLines grid lines fieldShape).bombExplosionCells ↔
        ∃ b ∈ clearLinesBombCells grid lines,
          k ∈ getHexNeighbors b ∧ k ∈ fieldShape ∧
            cellIsFilled (clearLines grid lines fieldShape).gridAfterLineClear k
              = true) := by
  intro grid lines fieldShape
  have hbombs : (clearLines grid lines fieldShape).gridAfterBombs =
      applyBombExplosions (clearLines grid lines fieldShape).gridAfterLineClear
        (clearLinesBombCells grid lines) fieldShape := rfl
  have hexp : (clearLines grid lines fieldShape).bombExplosionCells =
      getBombExplosionCells (clearLines grid lines fieldShape).gridAfterLineClear
        (clearLinesBombCells grid lines) fieldShape := rfl
  by_cases hB : clearLinesBombCells grid lines = []
  · constructor
    · intro k
      rw [hbombs, hexp, hB]
      simp [applyBombExplosions, getBombExplosionCells]
    · intro k
      rw [hexp, hB]
      simp [getBombExplosionCells]
  · constructor
    · intro k
      rw [hbombs, hexp]
      unfold applyBombExplosions getBombExplosionCells
      rw [if_neg hB, if_neg hB]
      exact mapGet_foldl_mapDelete _ _ k
    · intro k
      rw [hexp]
      unfold getBombExplosionCells
      rw [if_neg hB, mem_bombDestroySet]
      simp [mem_getFilledNeighbors]

theorem processFrozenCells_cons_none (grid : GridState) (c : AxialCoord)
    (rest : List AxialCoord) (h : mapGet grid c = none) :
    processFrozenCells grid (c :: rest) = processFrozenCells grid rest := by
  rw [processFrozenCells, h]

theorem processFrozenCells_cons_empty (grid : GridState) (c : AxialCoord)
    (rest : List AxialCoord) (h : mapGet grid c = some .empty) :
    processFrozenCells grid (c :: rest) = processFrozenCells grid rest := by
  rw [processFrozenCells, h]

theorem processFrozenCells_cons_fresh (grid : GridState) (c : AxialCoord)
    (rest : List AxialCoord) (color : String) (clr : Option Nat)
    (h : mapGet grid c = some (.filled color (some .frozen) false clr)) :
    processFrozenCells grid (c :: rest) =
      processFrozenCells (mapSet grid c (.filled color none true none)) rest := by
  rw [processFrozenCells, h]
  dsimp only
  rw [if_pos (And.intro rfl rfl)]

theorem processFrozenCells_cons_other (grid : GridState) (c : AxialCoord)
    (rest : List AxialCoord) (color : String) (special : Option SpecialCellType)
    (fc : Bool) (clr : Option Nat)
    (h : mapGet grid c = some (.filled color special fc clr))
    (hn : ¬ (special = some .frozen ∧ fc = false)) :
    processFrozenCells grid (c :: rest) =
      (c :: (processFrozenCells grid rest).1, (processFrozenCells grid rest).2) := by
  rw [processFrozenCells, h]
  dsimp only
  rw [if_neg hn]

theorem processFrozenCells_not_mem (batch : List AxialCoord) :
    ∀ (grid : GridState) (k : AxialCoord), k ∉ batch →
      mapGet (processFrozenCells grid batch).2 k = mapGet grid k ∧
      k ∉ (processFrozenCells grid batch).1 := by
  induction batch with
  | nil =>
    intro grid k _
    exact ⟨rfl, by simp [processFrozenCells]⟩
  | cons c rest ih =>
    intro grid k h
    have hck : ¬ (k = c) := fun e => h (e ▸ List.mem_cons_self c rest)
    have hkrest : k ∉ rest := fun e => h (List.mem_cons_of_mem _ e)
    cases hc : mapGet grid c with
    | none =>
      rw [processFrozenCells_cons_none grid c rest hc]
      exact ih grid k hkrest
    | some s =>
      cases s with
      | empty =>
        rw [processFrozenCells_cons_empty grid c rest hc]
        exact ih grid k hkrest
      | filled color special fc clr =>
        by_cases hfr : special = some .frozen ∧ fc = false
        · rcases hfr with ⟨hs, hf⟩
          subst hs; subst hf
          rw [processFrozenCells_cons_fresh grid c rest color clr hc]
          have := ih (mapSet grid c (.filled color none true none)) k hkrest
          rw [mapGet_mapSet_ne _ _ _ _ hck] at this
          exact this
        · rw [processFrozenCells_cons_other grid c rest color special fc clr hc hfr]
          refine ⟨(ih grid k hkrest).1, ?_⟩
          intro hmem
          rcases List.mem_cons.mp hmem with he | hmem
          · exact hck he
          · exact (ih grid k hkrest).2 hmem

theorem processFrozenCells_fresh_once (batch : List AxialCoord) :
    ∀ (grid : GridState) (k : AxialCoord) (color : String) (clr : Option Nat),
      mapGet grid k = some (.filled color (some .frozen) false clr) →
      batch.count k = 1 →
      mapGet (processFrozenCells grid batch).2 k =
        some (.filled color none true none) ∧
      k ∉ (processFrozenCells grid batch).1 := by
  induction batch with
  | nil => intro grid k color clr _ hcount; simp at hcount
  | cons c rest ih =>
    intro grid k color clr hk hcount
    by_cases hck : c = k
    · subst hck
      have hrest : rest.count c = 0 := by
        rw [List.count_cons_self] at hcount
        omega
      have hnotmem : c ∉ rest := by
        rw [← List.count_pos_iff]
        omega
      rw [processFrozenCells_cons_fresh grid c rest color clr hk]
      have := processFrozenCells_not_mem rest
        (mapSet grid c (.filled color none true none)) c hnotmem
      rw [mapGet_mapSet_self] at this
      exact this
    · have hkc : ¬ (k = c) := fun e => hck e.symm
      have hcount' : rest.count k = 1 := by
        rw [List.count_cons_of_ne (fun e => hck e.symm)] at hcount
        exact hcount
      cases hc : mapGet grid c with
      | none =>
        rw [processFrozenCells_cons_none grid c rest hc]
        exact ih grid k color clr hk hcount'
      | some s =>
        cases s with
        | empty =>
          rw [processFrozenCells_cons_empty grid c rest hc]
          exact ih grid k color clr hk hcount'
        | filled color2 special2 fc2 clr2 =>
          by_cases hfr : special2 = some .frozen ∧ fc2 = false
          · rcases hfr with ⟨hs, hf⟩
            subst hs; subst hf
            rw [processFrozenCells_cons_fresh grid c rest color2 clr2 hc]
            refine ih (mapSet grid c (.filled color2 none true none)) k color clr ?_ hcount'
            rw [mapGet_mapSet_ne _ _ _ _ hkc]
            exact hk
          · rw [processFrozenCells_cons_other grid c rest color2 special2 fc2 clr2 hc hfr]
            refine ⟨(ih grid k color clr hk hcount').1, ?_⟩
            intro hmem
            rcases List.mem_cons.mp hmem with he | hmem
            · exact hkc he
            · exact (ih grid k color clr hk hcount').2 hmem

theorem processFrozenCells_removed (batch : List AxialCoord) :
    ∀ (grid : GridState) (k : AxialCoord) (s : CellState),
      k ∈ batch → mapGet grid k = some s → s.isFilled = true →
      s.isFreshFrozen = false →
      k ∈ (processFrozenCells grid batch).1 := by
  induction batch with
  | nil => intro grid k s hmem; simp at hmem
  | cons c rest ih =>
    intro grid k s hmem hk hfill hfresh
    by_cases hck : c = k
    · subst hck
      cases s with
      | empty => simp [CellState.isFilled] at hfill
      | filled color special fc clr =>
        have hn : ¬ (special = some .frozen ∧ fc = false) := by
          intro hcon
          rcases hcon with ⟨hs, hf⟩
          subst hs; subst hf
          simp [CellState.isFreshFrozen] at hfresh
        rw [processFrozenCells_cons_other grid c rest color special fc clr hk hn]
        exact List.mem_cons_self c _
    · have hkrest : k ∈ rest := by
        rcases List.mem_cons.mp hmem with he | hm
        · exact absurd he.symm hck
        · exact hm
      cases hc : mapGet grid c with
      | none =>
        rw [processFrozenCells_cons_none grid c rest hc]
        exact ih grid k s hkrest hk hfill hfresh
      | some s2 =>
        cases s2 with
        | empty =>
          rw [processFrozenCells_cons_empty grid c rest hc]
          exact ih grid k s hkrest hk hfill hfresh
        | filled color2 special2 fc2 clr2 =>
          by_cases hfr : special2 = some .frozen ∧ fc2 = false
          · rcases hfr with ⟨hs, hf⟩
            subst hs; subst hf
            rw [processFrozenCells_cons_fresh grid c rest color2 clr2 hc]
            refine ih (mapSet grid c (.filled color2 none true none)) k s ?_ ?_ hfill hfresh
            · exact hkrest
            · rw [mapGet_mapSet_ne _ _ _ _ (fun e => hck e.symm)]
              exact hk
          · rw [processFrozenCells_cons_other grid c rest color2 special2 fc2 clr2 hc hfr]
            exact List.mem_cons_of_mem c (ih grid k s hkrest hk hfill hfresh)

theorem processFrozenCells_fresh_twice (batch : List AxialCoord) :
    ∀ (grid : GridState) (k : AxialCoord) (color : String) (clr : Option Nat),
      mapGet grid k = some (.filled color (some .frozen) false clr) →
      2 ≤ batch.count k →
      k ∈ (processFrozenCells grid batch).1 := by
  induction batch with
  | nil => intro grid k color clr _ hcount; simp at hcount
  | cons c rest ih =>
    intro grid k color clr hk hcount
    by_cases hck : c = k
    · subst hck
      have hrest : 1 ≤ rest.count c := by
        rw [List.count_cons_self] at hcount
        omega
      have hmem : c ∈ rest := List.count_pos_iff.mp (by omega)
      rw [processFrozenCells_cons_fresh grid c rest color clr hk]
      refine processFrozenCells_removed rest
        (mapSet grid c (.filled color none true none)) c
        (.filled color none true none) hmem ?_ rfl rfl
      exact mapGet_mapSet_self _ _ _
    · have hcount' : 2 ≤ rest.count k := by
        rw [List.count_cons_of_ne (fun e => hck e.symm)] at hcount
        exact hcount
      cases hc : mapGet grid c with
      | none =>
        rw [processFrozenCells_cons_none grid c rest hc]
        exact ih grid k color clr hk hcount'
      | some s =>
        cases s with
        | empty =>
          rw [processFrozenCells_cons_empty grid c rest hc]
          exact ih grid k color clr hk hcount'
        | filled color2 special2 fc2 clr2 =>
          by_cases hfr : special2 = some .frozen ∧ fc2 = false
          · rcases hfr with ⟨hs, hf⟩
            subst hs; subst hf
            rw [processFrozenCells_cons_fresh grid c rest color2 clr2 hc]
            refine ih (mapSet grid c (.filled color2 none true none)) k color clr ?_ hcount'
            rw [mapGet_mapSet_ne _ _ _ _ (fun e => hck e.symm)]
            exact hk
          · rw [processFrozenCells_cons_other grid c rest color2 special2 fc2 clr2 hc hfr]
            exact List.mem_cons_of_mem c (ih grid k color clr hk hcount')

theorem clearLines_gridAfterLineClear (grid : GridState) (lines : List Line)
    (fieldShape : FieldShape) :
    (clearLines grid lines fieldShape).gridAfterLineClear =
      (processFrozenCells grid (linesBatch lines)).1.foldl mapDelete
        (processFrozenCells grid (linesBatch lines)).2 := rfl

/-- C4 (amended): a cell of the batch that is frozen and not yet
frozenCleared and occurs exactly once in the batch is kept filled and
rewritten to a normal cell with frozenCleared set; such a cell occurring
at least twice in the batch (the intersection of two simultaneously
completed lines) is removed instead; and every other filled cell of the
batch, already-frozenCleared cells included, is removed. -/
theorem c4_frozen_lifecycle :
    ∀ grid lines (fieldShape : FieldShape) (k : AxialCoord),
      (∀ color clr,
        mapGet grid k = some (.filled color (some .frozen) false clr) →
        (((linesBatch lines).count k = 1 →
           mapGet (clearLines grid lines fieldShape).gridAfterLineClear k =
             some (.filled color none true none)) ∧
         (2 ≤ (linesBatch lines).count k →
           mapGet (clearLines grid lines fieldShape).gridAfterLineClear k =
             none))) ∧
      (∀ s, mapGet grid k = some s → s.isFilled = true →
        s.isFreshFrozen = false → k ∈ linesBatch lines →
        mapGet (clearLines grid lines fieldShape).gridAfterLineClear k =
          none) := by
  intro grid lines fieldShape k
  rw [clearLines_gridAfterLineClear]
  constructor
  · intro color clr hk
    constructor
    · intro hcount
      have h1 := processFrozenCells_fresh_once (linesBatch lines) grid k color clr hk hcount
      rw [mapGet_foldl_mapDelete, if_neg h1.2]
      exact h1.1
    · intro hcount
      have h2 := processFrozenCells_fresh_twice (linesBatch lines) grid k color clr hk hcount
      rw [mapGet_foldl_mapDelete, if_pos h2]
  · intro s hk hfill hfresh hmem
    have h3 := processFrozenCells_removed (linesBatch lines) grid k s hmem hk hfill hfresh
    rw [mapGet_foldl_mapDelete, if_pos h3]

/-- C4 counterexample: on the 5-by-6 test field with the diagonalRight
line r = 1 and the diagonalLeft line q + r = 3 simultaneously complete,
the fresh frozen cell at their intersection (2, 1) is in the batch but is
removed by the clear, not kept. -/
theorem c4_frozen_lifecycle_counterexample :
    mapGet crossingLinesGrid ⟨2, 1⟩ =
      some (.filled "#00f" (some .frozen) false none) ∧
    (⟨2, 1⟩ : AxialCoord) ∈
      linesBatch (detectLines crossingLinesGrid TEST_FIELD) ∧
    mapGet (clearLines crossingLinesGrid
      (detectLines crossingLinesGrid TEST_FIELD)
      TEST_FIELD).gridAfterLineClear ⟨2, 1⟩ = none := by
  refine ⟨by decide, by decide, by decide⟩

/-- C4 witness: on the test field with the single complete line r = 1,
the fresh frozen cell at (2, 1) occurs once in the batch and survives the
clear rewritten to a normal frozenCleared cell. -/
theorem c4_frozen_lifecycle_witness :
    mapGet (clearLines singleLineGrid
      (detectLines singleLineGrid TEST_FIELD)
      TEST_FIELD).gridAfterLineClear ⟨2, 1⟩ =
      some (.filled "#00f" none true none) :=
  ((c4_frozen_lifecycle singleLineGrid
      (detectLines singleLineGrid TEST_FIELD) TEST_FIELD ⟨2, 1⟩).1
    "#00f" none (by decide)).1 (by decide)

theorem groundedPropagatePass_extends :
    ∀ (cells : List (AxialCoord × CellState)) (g : List AxialCoord),
      ∃ e, groundedPropagatePass cells g = g ++ e := by
  intro cells
  induction cells with
  | nil => intro g; exact ⟨[], by simp [groundedPropagatePass]⟩
  | cons p rest ih =>
    intro g
    unfold groundedPropagatePass
    by_cases h1 : p.1 ∈ g
    · rw [if_pos h1]
      exact ih g
    · rw [if_neg h1]
      by_cases h2 : below p.1 ∈ g
      · rw [if_pos h2]
        rcases ih (g ++ [p.1]) with ⟨e, he⟩
        exact ⟨[p.1] ++ e, by rw [he, List.append_assoc]⟩
      · rw [if_neg h2]
        exact ih g

theorem mem_groundedPropagatePass_of_mem
    (cells : List (AxialCoord × CellState)) (g : List AxialCoord)
    (x : AxialCoord) (hx : x ∈ g) : x ∈ groundedPropagatePass cells g := by
  rcases groundedPropagatePass_extends cells g with ⟨e, he⟩
  rw [he]
  exact List.mem_append_left e hx

theorem mem_groundedPropagatePass
    (cells : List (AxialCoord × CellState)) :
    ∀ (g : List AxialCoord) (x : AxialCoord),
      x ∈ groundedPropagatePass cells g →
      x ∈ g ∨ x ∈ cells.map Prod.fst := by
  induction cells with
  | nil => intro g x h; exact Or.inl h
  | cons p rest ih =>
    intro g x h
    unfold groundedPropagatePass at h
    by_cases h1 : p.1 ∈ g
    · rw [if_pos h1] at h
      rcases ih g x h with hg | hk
      · exact Or.inl hg
      · exact Or.inr (List.mem_cons_of_mem _ hk)
    · rw [if_neg h1] at h
      by_cases h2 : below p.1 ∈ g
      · rw [if_pos h2] at h
        rcases ih (g ++ [p.1]) x h with hg | hk
        · rcases List.mem_append.mp hg with hg | hp
          · exact Or.inl hg
          · simp at hp
            subst hp
            exact Or.inr (by simp)
        · exact Or.inr (List.mem_cons_of_mem _ hk)
      · rw [if_neg h2] at h
        rcases ih g x h with hg | hk
        · exact Or.inl hg
        · exact Or.inr (List.mem_cons_of_mem _ hk)

theorem groundedPropagatePass_nodup
    (cells : List (AxialCoord × CellState)) :
    ∀ (g : List AxialCoord), g.Nodup →
      (groundedPropagatePass cells g).Nodup := by
  induction cells with
  | nil => intro g hg; exact hg
  | cons p rest ih =>
    intro g hg
    unfold groundedPropagatePass
    by_cases h1 : p.1 ∈ g
    · rw [if_pos h1]; exact ih g hg
    · rw [if_neg h1]
      by_cases h2 : below p.1 ∈ g
      · rw [if_pos h2]
        refine ih (g ++ [p.1]) ?_
        simp [List.nodup_append, hg, h1]
      · rw [if_neg h2]; exact ih g hg

theorem groundedPropagatePass_length_lt
    (cells : List (AxialCoord × CellState)) (g : List AxialCoord)
    (h : groundedPropagatePass cells g ≠ g) :
    g.length < (groundedPropagatePass cells g).length := by
  rcases groundedPropagatePass_extends cells g with ⟨e, he⟩
  rw [he] at h ⊢
  rcases e with _ | ⟨a, e⟩
  · simp at h
  · simp

/-- Closure invariant of the grounded set: every member is a filled-cell
key whose below-cell is off the field or itself in the set. -/
def GroundedInv (K : List AxialCoord) (fieldShape : FieldShape)
    (g : List AxialCoord) : Prop :=
  ∀ x ∈ g, x ∈ K ∧ (below x ∉ fieldShape ∨ below x ∈ g)

theorem groundedPropagatePass_inv
    (K : List AxialCoord) (fieldShape : FieldShape) :
    ∀ (cells : List (AxialCoord × CellState)) (g : List AxialCoord),
      (∀ p ∈ cells, p.1 ∈ K) → GroundedInv K fieldShape g →
      GroundedInv K fieldShape (groundedPropagatePass cells g) := by
  intro cells
  induction cells with
  | nil => intro g _ hg; exact hg
  | cons p rest ih =>
    intro g hc hg
    unfold groundedPropagatePass
    by_cases h1 : p.1 ∈ g
    · rw [if_pos h1]
      exact ih g (fun q hq => hc q (List.mem_cons_of_mem _ hq)) hg
    · rw [if_neg h1]
      by_cases h2 : below p.1 ∈ g
      · rw [if_pos h2]
        refine ih (g ++ [p.1]) (fun q hq => hc q (List.mem_cons_of_mem _ hq)) ?_
        intro x hx
        rcases List.mem_append.mp hx with hxg | hxp
        · rcases hg x hxg with ⟨hK, hb⟩
          exact ⟨hK, hb.imp id (fun hbg => List.mem_append_left _ hbg)⟩
        · simp at hxp
          subst hxp
          exact ⟨hc p (List.mem_cons_self p rest),
            Or.inr (List.mem_append_left _ h2)⟩
      · rw [if_neg h2]
        exact ih g (fun q hq => hc q (List.mem_cons_of_mem _ hq)) hg

theorem groundedPropagatePass_complete
    (cells : List (AxialCoord × CellState)) :
    ∀ (g : List AxialCoord) (p : AxialCoord × CellState), p ∈ cells →
      below p.1 ∈ g → p.1 ∈ groundedPropagatePass cells g := by
  induction cells with
  | nil => intro g p hp; simp at hp
  | cons q rest ih =>
    intro g p hp hb
    unfold groundedPropagatePass
    rcases List.mem_cons.mp hp with rfl | hp
    · by_cases h1 : p.1 ∈ g
      · rw [if_pos h1]
        exact mem_groundedPropagatePass_of_mem rest _ _ h1
      · rw [if_neg h1, if_pos hb]
        exact mem_groundedPropagatePass_of_mem rest _ _
          (List.mem_append_right g (by simp))
    · by_cases h1 : q.1 ∈ g
      · rw [if_pos h1]
        exact ih g p hp hb
      · rw [if_neg h1]
        by_cases h2 : below q.1 ∈ g
        · rw [if_pos h2]
          exact ih (g ++ [q.1]) p hp (List.mem_append_left _ hb)
        · rw [if_neg h2]
          exact ih g p hp hb

theorem mem_groundedFloorPass (fieldShape : FieldShape) :
    ∀ (cells : List (AxialCoord × CellState)) (g : List AxialCoord)
      (x : AxialCoord),
      x ∈ groundedFloorPass fieldShape cells g ↔
        x ∈ g ∨ ∃ p ∈ cells, p.1 = x ∧ below x ∉ fieldShape := by
  intro cells
  induction cells with
  | nil => intro g x; simp [groundedFloorPass]
  | cons p rest ih =>
    intro g x
    unfold groundedFloorPass
    by_cases h1 : below p.1 ∈ fieldShape
    · rw [if_pos h1, ih]
      constructor
      · rintro (hx | ⟨q, hq, rfl, hb⟩)
        · exact Or.inl hx
        · exact Or.inr ⟨q, List.mem_cons_of_mem _ hq, rfl, hb⟩
      · rintro (hx | ⟨q, hq, rfl, hb⟩)
        · exact Or.inl hx
        · rcases List.mem_cons.mp hq with rfl | hq
          · exact absurd h1 hb
          · exact Or.inr ⟨q, hq, rfl, hb⟩
    · rw [if_neg h1, ih]
      constructor
      · rintro (hx | ⟨q, hq, rfl, hb⟩)
        · rcases (mem_addKey g p.1 x).mp hx with hxg | rfl
          · exact Or.inl hxg
          · exact Or.inr ⟨p, List.mem_cons_self p rest, rfl, h1⟩
        · exact Or.inr ⟨q, List.mem_cons_of_mem _ hq, rfl, hb⟩
      · rintro (hx | ⟨q, hq, rfl, hb⟩)
        · exact Or.inl ((mem_addKey g p.1 x).mpr (Or.inl hx))
        · rcases List.mem_cons.mp hq with rfl | hq
          · exact Or.inl ((mem_addKey g q.1 q.1).mpr (Or.inr rfl))
          · exact Or.inr ⟨q, hq, rfl, hb⟩

theorem groundedFloorPass_nodup (fieldShape : FieldShape) :
    ∀ (cells : List (AxialCoord × CellState)) (g : List AxialCoord),
      g.Nodup → (groundedFloorPass fieldShape cells g).Nodup := by
  intro cells
  induction cells with
  | nil => intro g hg; exact hg
  | cons p rest ih =>
    intro g hg
    unfold groundedFloorPass
    by_cases h1 : below p.1 ∈ fieldShape
    · rw [if_pos h1]; exact ih g hg
    · rw [if_neg h1]
      refine ih _ ?_
      unfold addKey
      by_cases h2 : p.1 ∈ g
      · rw [if_pos h2]; exact hg
      · rw [if_neg h2]
        simp [List.nodup_append, hg, h2]

theorem mem_groundedIter_of_mem (cells : List (AxialCoord × CellState)) :
    ∀ (fuel : Nat) (g : List AxialCoord) (x : AxialCoord),
      x ∈ g → x ∈ groundedIter cells fuel g := by
  intro fuel
  induction fuel with
  | zero => intro g x hx; exact hx
  | succ n ih =>
    intro g x hx
    unfold groundedIter
    by_cases h : groundedPropagatePass cells g = g
    · rw [if_pos h]; exact hx
    · rw [if_neg h]
      exact ih _ x (mem_groundedPropagatePass_of_mem cells g x hx)

theorem mem_groundedIter (cells : List (AxialCoord × CellState)) :
    ∀ (fuel : Nat) (g : List AxialCoord) (x : AxialCoord),
      x ∈ groundedIter cells fuel g → x ∈ g ∨ x ∈ cells.map Prod.fst := by
  intro fuel
  induction fuel with
  | zero => intro g x hx; exact Or.inl hx
  | succ n ih =>
    intro g x hx
    unfold groundedIter at hx
    by_cases h : groundedPropagatePass cells g = g
    · rw [if_pos h] at hx; exact Or.inl hx
    · rw [if_neg h] at hx
      rcases ih _ x hx with hg | hk
      · exact mem_groundedPropagatePass cells g x hg
      · exact Or.inr hk

theorem groundedIter_inv (cells : List (AxialCoord × CellState))
    (K : List AxialCoord) (fieldShape : FieldShape)
    (hc : ∀ p ∈ cells, p.1 ∈ K) :
    ∀ (fuel : Nat) (g : List AxialCoord),
      GroundedInv K fieldShape g →
      GroundedInv K fieldShape (groundedIter cells fuel g) := by
  intro fuel
  induction fuel with
  | zero => intro g hg; exact hg
  | succ n ih =>
    intro g hg
    unfold groundedIter
    by_cases h : groundedPropagatePass cells g = g
    · rw [if_pos h]; exact hg
    · rw [if_neg h]
      exact ih _ (groundedPropagatePass_inv K fieldShape cells g hc hg)

theorem groundedIter_fix (cells : List (AxialCoord × CellState))
    (K : List AxialCoord) (hc : ∀ p ∈ cells, p.1 ∈ K) :
    ∀ (fuel : Nat) (g : List AxialCoord),
      g.Nodup → (∀ x ∈ g, x ∈ K) → K.length - g.length < fuel →
      groundedPropagatePass cells (groundedIter cells fuel g) =
        groundedIter cells fuel g := by
  intro fuel
  induction fuel with
  | zero => intro g _ _ hfuel; omega
  | succ n ih =>
    intro g hnd hsub hfuel
    unfold groundedIter
    by_cases h : groundedPropagatePass cells g = g
    · rw [if_pos h]; exact h
    · rw [if_neg h]
      have hlt := groundedPropagatePass_length_lt cells g h
      have hnd' := groundedPropagatePass_nodup cells g hnd
      have hsub' : ∀ x ∈ groundedPropagatePass cells g, x ∈ K := by
        intro x hx
        rcases mem_groundedPropagatePass cells g x hx with hg | hk
        · exact hsub x hg
        · rcases List.mem_map.mp hk with ⟨p, hp, rfl⟩
          exact hc p hp
      have hlen : (groundedPropagatePass cells g).length ≤ K.length :=
        ((hnd'.subperm hsub').length_le)
      exact ih _ hnd' hsub' (by omega)

theorem classifyGrounded_sub (cells : List (AxialCoord × CellState))
    (fieldShape : FieldShape) :
    ∀ x ∈ classifyGrounded cells fieldShape, x ∈ cells.map Prod.fst := by
  intro x hx
  unfold classifyGrounded at hx
  rcases mem_groundedIter cells _ _ x hx with hg | hk
  · rcases (mem_groundedFloorPass fieldShape cells [] x).mp hg with h0 | ⟨p, hp, rfl, _⟩
    · simp at h0
    · exact List.mem_map.mpr ⟨p, hp, rfl⟩
  · exact hk

theorem classifyGrounded_inv (cells : List (AxialCoord × CellState))
    (fieldShape : FieldShape) :
    GroundedInv (cells.map Prod.fst) fieldShape
      (classifyGrounded cells fieldShape) := by
  unfold classifyGrounded
  refine groundedIter_inv cells _ fieldShape
    (fun p hp => List.mem_map.mpr ⟨p, hp, rfl⟩) _ _ ?_
  intro x hx
  rcases (mem_groundedFloorPass fieldShape cells [] x).mp hx with h0 | ⟨p, hp, rfl, hb⟩
  · simp at h0
  · exact ⟨List.mem_map.mpr ⟨p, hp, rfl⟩, Or.inl hb⟩

theorem classifyGrounded_fix (cells : List (AxialCoord × CellState))
    (fieldShape : FieldShape) :
    groundedPropagatePass cells (classifyGrounded cells fieldShape) =
      classifyGrounded cells fieldShape := by
  unfold classifyGrounded
  refine groundedIter_fix cells (cells.map Prod.fst)
    (fun p hp => List.mem_map.mpr ⟨p, hp, rfl⟩) _ _
    (groundedFloorPass_nodup fieldShape cells [] List.nodup_nil) ?_ ?_
  · intro x hx
    rcases (mem_groundedFloorPass fieldShape cells [] x).mp hx with h0 | ⟨p, hp, rfl, _⟩
    · simp at h0
    · exact List.mem_map.mpr ⟨p, hp, rfl⟩
  · rw [List.length_map]
    omega

theorem classifyGrounded_of_floor (cells : List (AxialCoord × CellState))
    (fieldShape : FieldShape) (p : AxialCoord × CellState) (hp : p ∈ cells)
    (hb : below p.1 ∉ fieldShape) :
    p.1 ∈ classifyGrounded cells fieldShape := by
  unfold classifyGrounded
  refine mem_groundedIter_of_mem cells _ _ _ ?_
  exact (mem_groundedFloorPass fieldShape cells [] p.1).mpr
    (Or.inr ⟨p, hp, rfl, hb⟩)

theorem classifyGrounded_of_below (cells : List (AxialCoord × CellState))
    (fieldShape : FieldShape) (p : AxialCoord × CellState) (hp : p ∈ cells)
    (hb : below p.1 ∈ classifyGrounded cells fieldShape) :
    p.1 ∈ classifyGrounded cells fieldShape := by
  have := groundedPropagatePass_complete cells
    (classifyGrounded cells fieldShape) p hp hb
  rwa [classifyGrounded_fix] at this

theorem classifyGrounded_iff (cells : List (AxialCoord × CellState))
    (fieldShape : FieldShape) (p : AxialCoord × CellState) (hp : p ∈ cells) :
    p.1 ∈ classifyGrounded cells fieldShape ↔
      below p.1 ∉ fieldShape ∨
        (below p.1 ∈ cells.map Prod.fst ∧
         below p.1 ∈ classifyGrounded cells fieldShape) := by
  constructor
  · intro hg
    rcases (classifyGrounded_inv cells fieldShape p.1 hg).2 with hb | hbg
    · exact Or.inl hb
    · exact Or.inr ⟨classifyGrounded_sub cells fieldShape _ hbg, hbg⟩
  · rintro (hb | ⟨_, hbg⟩)
    · exact classifyGrounded_of_floor cells fieldShape p hp hb
    · exact classifyGrounded_of_below cells fieldShape p hp hbg

theorem classifyGrounded_minimal (cells : List (AxialCoord × CellState))
    (fieldShape : FieldShape) (P : AxialCoord → Prop)
    (h0 : ∀ p ∈ cells, below p.1 ∉ fieldShape → P p.1)
    (h1 : ∀ p ∈ cells, P (below p.1) → P p.1) :
    ∀ x ∈ classifyGrounded cells fieldShape, P x := by
  have hpass : ∀ (g : List AxialCoord), (∀ x ∈ g, P x) →
      ∀ x ∈ groundedPropagatePass cells g, P x := by
    intro g
    induction cells generalizing g with
    | nil => intro hg x hx; exact hg x hx
    | cons p rest ih =>
      intro hg x hx
      unfold groundedPropagatePass at hx
      by_cases hh1 : p.1 ∈ g
      · rw [if_pos hh1] at hx
        exact ih (fun q hq => h0 q (List.mem_cons_of_mem _ hq))
          (fun q hq => h1 q (List.mem_cons_of_mem _ hq)) g hg x hx
      · rw [if_neg hh1] at hx
        by_cases hh2 : below p.1 ∈ g
        · rw [if_pos hh2] at hx
          refine ih (fun q hq => h0 q (List.mem_cons_of_mem _ hq))
            (fun q hq => h1 q (List.mem_cons_of_mem _ hq)) (g ++ [p.1]) ?_ x hx
          intro y hy
          rcases List.mem_append.mp hy with hyg | hyp
          · exact hg y hyg
          · simp at hyp
            subst hyp
            exact h1 p (List.mem_cons_self p rest) (hg _ hh2)
        · rw [if_neg hh2] at hx
          exact ih (fun q hq => h0 q (List.mem_cons_of_mem _ hq))
            (fun q hq => h1 q (List.mem_cons_of_mem _ hq)) g hg x hx
  have hfloor : ∀ x ∈ groundedFloorPass fieldShape cells [], P x := by
    intro x hx
    rcases (mem_groundedFloorPass fieldShape cells [] x).mp hx with hc | ⟨p, hp, rfl, hb⟩
    · simp at hc
    · exact h0 p hp hb
  have hiter : ∀ (fuel : Nat) (g : List AxialCoord), (∀ x ∈ g, P x) →
      ∀ x ∈ groundedIter cells fuel g, P x := by
    intro fuel
    induction fuel with
    | zero => intro g hg; exact hg
    | succ n ih =>
      intro g hg x hx
      unfold groundedIter at hx
      by_cases h : groundedPropagatePass cells g = g
      · rw [if_pos h] at hx; exact hg x hx
      · rw [if_neg h] at hx
        exact ih _ (hpass g hg) x hx
  exact hiter _ _ hfloor

theorem classifyGrounded_congr (cells cells' : List (AxialCoord × CellState))
    (fieldShape : FieldShape)
    (h : ∀ k, k ∈ cells.map Prod.fst ↔ k ∈ cells'.map Prod.fst) :
    ∀ x, x ∈ classifyGrounded cells fieldShape ↔
      x ∈ classifyGrounded cells' fieldShape := by
  have dir : ∀ (a b : List (AxialCoord × CellState)),
      (∀ k, k ∈ a.map Prod.fst ↔ k ∈ b.map Prod.fst) →
      ∀ x ∈ classifyGrounded a fieldShape,
        x ∈ classifyGrounded b fieldShape := by
    intro a b hab
    refine classifyGrounded_minimal a fieldShape _ ?_ ?_
    · intro p hp hb
      have : p.1 ∈ b.map Prod.fst :=
        (hab p.1).mp (List.mem_map.mpr ⟨p, hp, rfl⟩)
      rcases List.mem_map.mp this with ⟨q, hq, hqe⟩
      have := classifyGrounded_of_floor b fieldShape q hq (by rw [hqe]; exact hb)
      rwa [hqe] at this
    · intro p hp hbg
      have : p.1 ∈ b.map Prod.fst :=
        (hab p.1).mp (List.mem_map.mpr ⟨p, hp, rfl⟩)
      rcases List.mem_map.mp this with ⟨q, hq, hqe⟩
      have := classifyGrounded_of_below b fieldShape q hq (by rw [hqe]; exact hbg)
      rwa [hqe] at this
  intro x
  exact ⟨dir cells cells' h x, dir cells' cells (fun k => (h k).symm) x⟩

theorem below_inj (a b : AxialCoord) (h : below a = below b) : a = b := by
  cases a; cases b
  simp [below, AxialCoord.mk.injEq] at h
  simp [AxialCoord.mk.injEq]
  omega

theorem below_r (c : AxialCoord) : (below c).r = c.r + 1 := rfl

theorem mapSet_eq_append (g : GridState) (k : AxialCoord) (v : CellState)
    (h : k ∉ gridKeys g) : mapSet g k v = g ++ [(k, v)] := by
  induction g with
  | nil => rfl
  | cons p rest ih =>
    rw [mapSet_cons]
    have hp : ¬ (p.1 = k) := by
      intro e
      exact h (by simp [gridKeys, e])
    rw [if_neg hp, List.cons_append]
    rw [ih (fun hm => h (by simp [gridKeys] at hm ⊢; exact Or.inr hm))]

theorem insertByRDesc_perm (p : AxialCoord × CellState) :
    ∀ (l : List (AxialCoord × CellState)), (insertByRDesc p l).Perm (p :: l) := by
  intro l
  induction l with
  | nil => exact List.Perm.refl _
  | cons q rest ih =>
    unfold insertByRDesc
    by_cases h : q.1.r ≤ p.1.r
    · rw [if_pos h]
    · rw [if_neg h]
      exact (ih.cons q).trans (List.Perm.swap p q rest)

theorem sortByRDesc_perm :
    ∀ (l : List (AxialCoord × CellState)), (sortByRDesc l).Perm l := by
  intro l
  induction l with
  | nil => exact List.Perm.refl _
  | cons p rest ih =>
    unfold sortByRDesc
    exact (insertByRDesc_perm p (sortByRDesc rest)).trans (ih.cons p)

theorem insertByRDesc_sorted (p : AxialCoord × CellState) :
    ∀ (l : List (AxialCoord × CellState)),
      l.Pairwise (fun a b => b.1.r ≤ a.1.r) →
      (insertByRDesc p l).Pairwise (fun a b => b.1.r ≤ a.1.r) := by
  intro l
  induction l with
  | nil => intro _; exact List.pairwise_singleton _ p
  | cons q rest ih =>
    intro hl
    rcases List.pairwise_cons.mp hl with ⟨hq, hrest⟩
    unfold insertByRDesc
    by_cases h : q.1.r ≤ p.1.r
    · rw [if_pos h]
      refine List.pairwise_cons.mpr ⟨?_, hl⟩
      intro b hb
      rcases List.mem_cons.mp hb with rfl | hb
      · exact h
      · exact le_trans (hq b hb) h
    · rw [if_neg h]
      refine List.pairwise_cons.mpr ⟨?_, ih hrest⟩
      intro b hb
      have hb' := (insertByRDesc_perm p rest).mem_iff.mp hb
      rcases List.mem_cons.mp hb' with rfl | hb'
      · exact le_of_not_le h
      · exact hq b hb'

theorem sortByRDesc_sorted :
    ∀ (l : List (AxialCoord × CellState)),
      (sortByRDesc l).Pairwise (fun a b => b.1.r ≤ a.1.r) := by
  intro l
  induction l with
  | nil => simp [sortByRDesc]
  | cons p rest ih =>
    unfold sortByRDesc
    exact insertByRDesc_sorted p (sortByRDesc rest) ih

theorem processFloating_nil (fieldShape : FieldShape) (ng : GridState)
    (occ : List AxialCoord) :
    processFloating fieldShape [] ng occ = (ng, occ, false) := rfl

theorem processFloating_cons_move (fieldShape : FieldShape) (c : AxialCoord)
    (s : CellState) (rest : List (AxialCoord × CellState)) (ng : GridState)
    (occ : List AxialCoord)
    (h : below c ∈ fieldShape ∧ below c ∉ occ) :
    processFloating fieldShape ((c, s) :: rest) ng occ =
      ((processFloating fieldShape rest (mapSet ng (below c) s)
          (addKey occ (below c))).1,
       (processFloating fieldShape rest (mapSet ng (below c) s)
          (addKey occ (below c))).2.1, true) := by
  rw [processFloating]
  dsimp only
  rw [if_pos h]

theorem processFloating_cons_stay (fieldShape : FieldShape) (c : AxialCoord)
    (s : CellState) (rest : List (AxialCoord × CellState)) (ng : GridState)
    (occ : List AxialCoord)
    (h : ¬ (below c ∈ fieldShape ∧ below c ∉ occ)) :
    processFloating fieldShape ((c, s) :: rest) ng occ =
      processFloating fieldShape rest (mapSet ng c s) (addKey occ c) := by
  rw [processFloating]
  dsimp only
  rw [if_neg h]

theorem gridKeys_append (a b : GridState) :
    gridKeys (a ++ b) = gridKeys a ++ gridKeys b := by
  simp [gridKeys]

theorem NodupKeys_append_single (ng : GridState) (k : AxialCoord)
    (v : CellState) (hng : NodupKeys ng) (hk : k ∉ gridKeys ng) :
    NodupKeys (ng ++ [(k, v)]) := by
  unfold NodupKeys at *
  rw [gridKeys_append]
  rw [List.nodup_append]
  refine ⟨hng, List.nodup_singleton _, ?_⟩
  intro a ha hb
  simp [gridKeys] at hb
  subst hb
  exact hk ha

theorem processFloating_spec (fieldShape : FieldShape) :
    ∀ (cells : List (AxialCoord × CellState)) (ng : GridState)
      (occ : List AxialCoord),
      (cells.map Prod.fst).Nodup →
      NodupKeys ng →
      (∀ p ∈ cells, p.1 ∉ gridKeys ng) →
      (∀ k, k ∈ occ ↔ k ∈ gridKeys ng) →
      cells.Pairwise (fun a b => b.1.r ≤ a.1.r) →
      (processFloating fieldShape cells ng occ).1.length =
        ng.length + cells.length ∧
      NodupKeys (processFloating fieldShape cells ng occ).1 ∧
      (∀ k, k ∈ (processFloating fieldShape cells ng occ).2.1 ↔
        k ∈ gridKeys (processFloating fieldShape cells ng occ).1) ∧
      (∀ e, e ∈ (processFloating fieldShape cells ng occ).1 →
        e ∈ ng ∨ e ∈ cells ∨
          ∃ c s, e = (below c, s) ∧ (c, s) ∈ cells ∧ below c ∈ fieldShape) ∧
      (∀ e, e ∈ ng → e ∈ (processFloating fieldShape cells ng occ).1) ∧
      (∀ c s, (c, s) ∈ cells →
        (c, s) ∈ (processFloating fieldShape cells ng occ).1 ∨
        (below c, s) ∈ (processFloating fieldShape cells ng occ).1) := by
  intro cells
  induction cells with
  | nil =>
    intro ng occ _ hng _ hocc _
    rw [processFloating_nil]
    refine ⟨by simp, hng, hocc, ?_, fun e he => he, by simp⟩
    intro e he
    exact Or.inl he
  | cons p rest ih =>
    rcases p with ⟨c, s⟩
    intro ng occ hknodup hng hdisj hocc hsorted
    rw [List.map_cons] at hknodup
    have hkc : c ∉ rest.map Prod.fst := (List.nodup_cons.mp hknodup).1
    have hknodup' : (rest.map Prod.fst).Nodup := (List.nodup_cons.mp hknodup).2
    have hheadrel : ∀ b ∈ rest, b.1.r ≤ c.r :=
      (List.pairwise_cons.mp hsorted).1
    have hsorted' := (List.pairwise_cons.mp hsorted).2
    have hcng : c ∉ gridKeys ng := hdisj (c, s) (List.mem_cons_self _ _)
    by_cases hmv : below c ∈ fieldShape ∧ below c ∉ occ
    · rw [processFloating_cons_move fieldShape c s rest ng occ hmv]
      have hbng : below c ∉ gridKeys ng := fun hm => hmv.2 ((hocc _).mpr hm)
      have hseteq : mapSet ng (below c) s = ng ++ [(below c, s)] :=
        mapSet_eq_append ng (below c) s hbng
      have hng' : NodupKeys (mapSet ng (below c) s) := by
        rw [hseteq]
        exact NodupKeys_append_single ng (below c) s hng hbng
      have hkeys' : gridKeys (mapSet ng (below c) s) =
          gridKeys ng ++ [below c] := by
        rw [hseteq, gridKeys_append]
        rfl
      have hdisj' : ∀ q ∈ rest, q.1 ∉ gridKeys (mapSet ng (below c) s) := by
        intro q hq hm
        rw [hkeys'] at hm
        rcases List.mem_append.mp hm with hm | hm
        · exact hdisj q (List.mem_cons_of_mem _ hq) hm
        · simp at hm
          have := hheadrel q hq
          rw [hm, below_r] at this
          omega
      have hocc' : ∀ k, k ∈ addKey occ (below c) ↔
          k ∈ gridKeys (mapSet ng (below c) s) := by
        intro k
        rw [mem_addKey, hkeys', List.mem_append]
        simp [hocc k]
      have IH := ih (mapSet ng (below c) s) (addKey occ (below c))
        hknodup' hng' hdisj' hocc' hsorted'
      refine ⟨?_, IH.2.1, IH.2.2.1, ?_, ?_, ?_⟩
      · rw [IH.1, hseteq]
        simp
        omega
      · intro e he
        rcases IH.2.2.2.1 e he with hin | hin | ⟨c2, s2, rfl, hc2, hf2⟩
        · rw [hseteq] at hin
          rcases List.mem_append.mp hin with hin | hin
          · exact Or.inl hin
          · simp at hin
            subst hin
            exact Or.inr (Or.inr ⟨c, s, rfl, List.mem_cons_self _ _, hmv.1⟩)
        · exact Or.inr (Or.inl (List.mem_cons_of_mem _ hin))
        · exact Or.inr (Or.inr ⟨c2, s2, rfl, List.mem_cons_of_mem _ hc2, hf2⟩)
      · intro e he
        refine IH.2.2.2.2.1 e ?_
        rw [hseteq]
        exact List.mem_append_left _ he
      · intro c0 s0 h0
        rcases List.mem_cons.mp h0 with he | h0
        · rcases Prod.mk.injEq .. ▸ he with ⟨rfl, rfl⟩
          refine Or.inr (IH.2.2.2.2.1 _ ?_)
          rw [hseteq]
          exact List.mem_append_right _ (by simp)
        · exact IH.2.2.2.2.2 c0 s0 h0
    · rw [processFloating_cons_stay fieldShape c s rest ng occ hmv]
      have hseteq : mapSet ng c s = ng ++ [(c, s)] :=
        mapSet_eq_append ng c s hcng
      have hng' : NodupKeys (mapSet ng c s) := by
        rw [hseteq]
        exact NodupKeys_append_single ng c s hng hcng
      have hkeys' : gridKeys (mapSet ng c s) = gridKeys ng ++ [c] := by
        rw [hseteq, gridKeys_append]
        rfl
      have hdisj' : ∀ q ∈ rest, q.1 ∉ gridKeys (mapSet ng c s) := by
        intro q hq hm
        rw [hkeys'] at hm
        rcases List.mem_append.mp hm with hm | hm
        · exact hdisj q (List.mem_cons_of_mem _ hq) hm
        · simp at hm
          exact hkc (hm ▸ List.mem_map.mpr ⟨q, hq, rfl⟩)
      have hocc' : ∀ k, k ∈ addKey occ c ↔ k ∈ gridKeys (mapSet ng c s) := by
        intro k
        rw [mem_addKey, hkeys', List.mem_append]
        simp [hocc k]
      have IH := ih (mapSet ng c s) (addKey occ c)
        hknodup' hng' hdisj' hocc' hsorted'
      refine ⟨?_, IH.2.1, IH.2.2.1, ?_, ?_, ?_⟩
      · rw [IH.1, hseteq]
        simp
        omega
      · intro e he
        rcases IH.2.2.2.1 e he with hin | hin | ⟨c2, s2, rfl, hc2, hf2⟩
        · rw [hseteq] at hin
          rcases List.mem_append.mp hin with hin | hin
          · exact Or.inl hin
          · simp at hin
            subst hin
            exact Or.inr (Or.inl (List.mem_cons_self _ _))
        · exact Or.inr (Or.inl (List.mem_cons_of_mem _ hin))
        · exact Or.inr (Or.inr ⟨c2, s2, rfl, List.mem_cons_of_mem _ hc2, hf2⟩)
      · intro e he
        refine IH.2.2.2.2.1 e ?_
        rw [hseteq]
        exact List.mem_append_left _ he
      · intro c0 s0 h0
        rcases List.mem_cons.mp h0 with he | h0
        · rcases Prod.mk.injEq .. ▸ he with ⟨rfl, rfl⟩
          refine Or.inl (IH.2.2.2.2.1 _ ?_)
          rw [hseteq]
          exact List.mem_append_right _ (by simp)
        · exact IH.2.2.2.2.2 c0 s0 h0

theorem processFloating_occ_mono (fieldShape : FieldShape) :
    ∀ (cells : List (AxialCoord × CellState)) (ng : GridState)
      (occ : List AxialCoord) (k : AxialCoord), k ∈ occ →
      k ∈ (processFloating fieldShape cells ng occ).2.1 := by
  intro cells
  induction cells with
  | nil => intro ng occ k hk; exact hk
  | cons p rest ih =>
    rcases p with ⟨c, s⟩
    intro ng occ k hk
    by_cases hmv : below c ∈ fieldShape ∧ below c ∉ occ
    · rw [processFloating_cons_move fieldShape c s rest ng occ hmv]
      exact ih _ _ k ((mem_addKey occ (below c) k).mpr (Or.inl hk))
    · rw [processFloating_cons_stay fieldShape c s rest ng occ hmv]
      exact ih _ _ k ((mem_addKey occ c k).mpr (Or.inl hk))

theorem processFloating_nomove_blocked (fieldShape : FieldShape) :
    ∀ (cells : List (AxialCoord × CellState)) (ng : GridState)
      (occ : List AxialCoord),
      (processFloating fieldShape cells ng occ).2.2 = false →
      ∀ p ∈ cells, below p.1 ∈ fieldShape →
        below p.1 ∈ (processFloating fieldShape cells ng occ).2.1 := by
  intro cells
  induction cells with
  | nil => intro ng occ _ p hp; simp at hp
  | cons q rest ih =>
    rcases q with ⟨c, s⟩
    intro ng occ hflag p hp hbf
    by_cases hmv : below c ∈ fieldShape ∧ below c ∉ occ
    · rw [processFloating_cons_move fieldShape c s rest ng occ hmv] at hflag
      simp at hflag
    · rw [processFloating_cons_stay fieldShape c s rest ng occ hmv] at hflag ⊢
      rcases List.mem_cons.mp hp with he | hp
      · have hbf' : below c ∈ fieldShape := by rw [he] at hbf; exact hbf
        have hocc : below c ∈ occ := by
          by_contra hno
          exact hmv ⟨hbf', hno⟩
        rw [he]
        exact processFloating_occ_mono fieldShape rest _ _ _
          ((mem_addKey occ c (below c)).mpr (Or.inl hocc))
      · exact ih _ _ hflag p hp hbf

theorem processFloating_nomove_occ (fieldShape : FieldShape) :
    ∀ (cells : List (AxialCoord × CellState)) (ng : GridState)
      (occ : List AxialCoord),
      (processFloating fieldShape cells ng occ).2.2 = false →
      ∀ k, k ∈ (processFloating fieldShape cells ng occ).2.1 ↔
        k ∈ occ ∨ k ∈ cells.map Prod.fst := by
  intro cells
  induction cells with
  | nil => intro ng occ _ k; simp [processFloating_nil]
  | cons q rest ih =>
    rcases q with ⟨c, s⟩
    intro ng occ hflag k
    by_cases hmv : below c ∈ fieldShape ∧ below c ∉ occ
    · rw [processFloating_cons_move fieldShape c s rest ng occ hmv] at hflag
      simp at hflag
    · rw [processFloating_cons_stay fieldShape c s rest ng occ hmv] at hflag ⊢
      rw [ih _ _ hflag k, mem_addKey]
      simp [List.mem_cons]
      tauto

theorem processFloating_nomove_entries (fieldShape : FieldShape) :
    ∀ (cells : List (AxialCoord × CellState)) (ng : GridState)
      (occ : List AxialCoord),
      (cells.map Prod.fst).Nodup →
      (∀ p ∈ cells, p.1 ∉ gridKeys ng) →
      (processFloating fieldShape cells ng occ).2.2 = false →
      ∀ e, e ∈ (processFloating fieldShape cells ng occ).1 ↔
        e ∈ ng ∨ e ∈ cells := by
  intro cells
  induction cells with
  | nil => intro ng occ _ _ _ e; simp [processFloating_nil]
  | cons q rest ih =>
    rcases q with ⟨c, s⟩
    intro ng occ hknodup hdisj hflag e
    rw [List.map_cons] at hknodup
    have hkc : c ∉ rest.map Prod.fst := (List.nodup_cons.mp hknodup).1
    have hknodup' : (rest.map Prod.fst).Nodup := (List.nodup_cons.mp hknodup).2
    have hcng : c ∉ gridKeys ng := hdisj (c, s) (List.mem_cons_self _ _)
    by_cases hmv : below c ∈ fieldShape ∧ below c ∉ occ
    · rw [processFloating_cons_move fieldShape c s rest ng occ hmv] at hflag
      simp at hflag
    · rw [processFloating_cons_stay fieldShape c s rest ng occ hmv] at hflag ⊢
      have hseteq : mapSet ng c s = ng ++ [(c, s)] :=
        mapSet_eq_append ng c s hcng
      have hdisj' : ∀ q ∈ rest, q.1 ∉ gridKeys (mapSet ng c s) := by
        intro q hq hm
        rw [hseteq, gridKeys_append] at hm
        rcases List.mem_append.mp hm with hm | hm
        · exact hdisj q (List.mem_cons_of_mem _ hq) hm
        · simp [gridKeys] at hm
          exact hkc (hm ▸ List.mem_map.mpr ⟨q, hq, rfl⟩)
      rw [ih _ _ hknodup' hdisj' hflag e, hseteq]
      rw [List.mem_append, List.mem_cons]
      simp
      tauto

theorem processFloating_blocked_nomove (fieldShape : FieldShape) :
    ∀ (cells : List (AxialCoord × CellState)) (ng : GridState)
      (occ : List AxialCoord),
      cells.Pairwise (fun a b => b.1.r ≤ a.1.r) →
      (∀ p ∈ cells, below p.1 ∉ fieldShape ∨ below p.1 ∈ occ ∨
        below p.1 ∈ cells.map Prod.fst) →
      (processFloating fieldShape cells ng occ).2.2 = false := by
  intro cells
  induction cells with
  | nil => intro ng occ _ _; rfl
  | cons q rest ih =>
    rcases q with ⟨c, s⟩
    intro ng occ hsorted hblock
    have hheadrel : ∀ b ∈ rest, b.1.r ≤ c.r :=
      (List.pairwise_cons.mp hsorted).1
    have hsorted' := (List.pairwise_cons.mp hsorted).2
    have hhead : below c ∉ fieldShape ∨ below c ∈ occ := by
      rcases hblock (c, s) (List.mem_cons_self _ _) with h | h | h
      · exact Or.inl h
      · exact Or.inr h
      · rw [List.map_cons, List.mem_cons] at h
        rcases h with h | h
        · exfalso
          have hcc : below c = c := h
          have hr := congrArg AxialCoord.r hcc
          rw [below_r] at hr
          omega
        · exfalso
          rcases List.mem_map.mp h with ⟨q, hq, hqe⟩
          have hle : q.1.r ≤ c.r := hheadrel q hq
          have hqe' : q.1 = below c := hqe
          rw [hqe', below_r] at hle
          omega
    have hmv : ¬ (below c ∈ fieldShape ∧ below c ∉ occ) := by
      rcases hhead with h | h
      · exact fun hc => h hc.1
      · exact fun hc => hc.2 h
    rw [processFloating_cons_stay fieldShape c s rest ng occ hmv]
    refine ih _ _ hsorted' ?_
    intro p hp
    rcases hblock p (List.mem_cons_of_mem _ hp) with h | h | h
    · exact Or.inl h
    · exact Or.inr (Or.inl ((mem_addKey occ c _).mpr (Or.inl h)))
    · rw [List.map_cons, List.mem_cons] at h
      rcases h with h | h
      · exact Or.inr (Or.inl ((mem_addKey occ c _).mpr (Or.inr h)))
      · exact Or.inr (Or.inr h)

theorem processFloating_get_untouched (fieldShape : FieldShape) :
    ∀ (cells : List (AxialCoord × CellState)) (ng : GridState)
      (occ : List AxialCoord) (x : AxialCoord),
      x ∉ cells.map Prod.fst →
      (∀ c ∈ cells.map Prod.fst, below c ≠ x) →
      mapGet (processFloating fieldShape cells ng occ).1 x = mapGet ng x := by
  intro cells
  induction cells with
  | nil => intro ng occ x _ _; rfl
  | cons q rest ih =>
    rcases q with ⟨c, s⟩
    intro ng occ x hx hbx
    have hxc : ¬ (c = x) := by
      intro e
      exact hx (by rw [List.map_cons]; exact e ▸ List.mem_cons_self _ _)
    have hxrest : x ∉ rest.map Prod.fst := by
      intro hm
      exact hx (by rw [List.map_cons]; exact List.mem_cons_of_mem _ hm)
    have hbc : below c ≠ x :=
      hbx c (by rw [List.map_cons]; exact List.mem_cons_self _ _)
    have hbrest : ∀ c' ∈ rest.map Prod.fst, below c' ≠ x := by
      intro c' hm
      exact hbx c' (by rw [List.map_cons]; exact List.mem_cons_of_mem _ hm)
    by_cases hmv : below c ∈ fieldShape ∧ below c ∉ occ
    · rw [processFloating_cons_move fieldShape c s rest ng occ hmv]
      rw [ih _ _ x hxrest hbrest]
      exact mapGet_mapSet_ne ng (below c) x s (fun e => hbc e.symm)
    · rw [processFloating_cons_stay fieldShape c s rest ng occ hmv]
      rw [ih _ _ x hxrest hbrest]
      exact mapGet_mapSet_ne ng c x s (fun e => hxc e.symm)

theorem processFloating_moves (fieldShape : FieldShape) :
    ∀ (cells : List (AxialCoord × CellState)) (ng : GridState)
      (occ : List AxialCoord) (k : AxialCoord) (s : CellState),
      (cells.map Prod.fst).Nodup →
      (k, s) ∈ cells →
      below k ∈ fieldShape →
      below k ∉ occ →
      below k ∉ cells.map Prod.fst →
      mapGet (processFloating fieldShape cells ng occ).1 (below k) = some s := by
  intro cells
  induction cells with
  | nil => intro ng occ k s _ hk; simp at hk
  | cons q rest ih =>
    rcases q with ⟨c, s0⟩
    intro ng occ k s hknodup hk hbf hbocc hbcells
    rw [List.map_cons] at hknodup
    have hkc : c ∉ rest.map Prod.fst := (List.nodup_cons.mp hknodup).1
    have hknodup' : (rest.map Prod.fst).Nodup := (List.nodup_cons.mp hknodup).2
    have hbrest : below k ∉ rest.map Prod.fst := by
      intro hm
      exact hbcells (by rw [List.map_cons]; exact List.mem_cons_of_mem _ hm)
    have hbhead : below k ≠ c := by
      intro e
      exact hbcells (by rw [List.map_cons]; exact e ▸ List.mem_cons_self _ _)
    rcases List.mem_cons.mp hk with he | hk
    · injection he with h1 h2
      subst h1
      subst h2
      have hmv : below k ∈ fieldShape ∧ below k ∉ occ := ⟨hbf, hbocc⟩
      rw [processFloating_cons_move fieldShape k s rest ng occ hmv]
      have huntouched : ∀ c' ∈ rest.map Prod.fst, below c' ≠ below k := by
        intro c' hm he'
        have hceq : c' = k := below_inj c' k he'
        subst hceq
        exact hkc hm
      rw [processFloating_get_untouched fieldShape rest _ _ (below k) hbrest huntouched]
      exact mapGet_mapSet_self ng (below k) s
    · have hck : ¬ (c = k) := by
        intro e
        subst e
        exact hkc (List.mem_map.mpr ⟨(c, s), hk, rfl⟩)
      have hbne : below k ≠ below c := fun e => hck ((below_inj k c e).symm)
      by_cases hmv : below c ∈ fieldShape ∧ below c ∉ occ
      · rw [processFloating_cons_move fieldShape c s0 rest ng occ hmv]
        refine ih _ _ k s hknodup' hk hbf ?_ hbrest
        intro hm
        rcases (mem_addKey occ (below c) (below k)).mp hm with hm | hm
        · exact hbocc hm
        · exact hbne hm
      · rw [processFloating_cons_stay fieldShape c s0 rest ng occ hmv]
        refine ih _ _ k s hknodup' hk hbf ?_ hbrest
        intro hm
        rcases (mem_addKey occ c (below k)).mp hm with hm | hm
        · exact hbocc hm
        · exact hbhead hm

theorem applyGravityStep_no_filled (grid : GridState)
    (fieldShape : FieldShape) (h : filledCellsOf grid = []) :
    applyGravityStep grid fieldShape = (grid, false) := by
  unfold applyGravityStep
  rw [if_pos h]

theorem applyGravityStep_no_floating (grid : GridState)
    (fieldShape : FieldShape) (h : floatingCellsOf grid fieldShape = []) :
    applyGravityStep grid fieldShape = (grid, false) := by
  unfold applyGravityStep
  by_cases h1 : filledCellsOf grid = []
  · rw [if_pos h1]
  · rw [if_neg h1, if_pos h]

theorem applyGravityStep_main (grid : GridState) (fieldShape : FieldShape)
    (h1 : filledCellsOf grid ≠ []) (h2 : floatingCellsOf grid fieldShape ≠ []) :
    applyGravityStep grid fieldShape =
      ((processFloating fieldShape
          (sortByRDesc (floatingCellsOf grid fieldShape))
          (baseGridOf grid fieldShape) (groundedKeysOf grid fieldShape)).1,
       (processFloating fieldShape
          (sortByRDesc (floatingCellsOf grid fieldShape))
          (baseGridOf grid fieldShape) (groundedKeysOf grid fieldShape)).2.2) := by
  unfold applyGravityStep
  rw [if_neg h1, if_neg h2]

theorem mem_filledCellsOf (grid : GridState) (e : AxialCoord × CellState) :
    e ∈ filledCellsOf grid ↔ e ∈ grid ∧ e.2.isFilled = true := by
  simp [filledCellsOf, List.mem_filter]

theorem NodupKeys_filledCellsOf (grid : GridState) (h : NodupKeys grid) :
    NodupKeys (filledCellsOf grid) := by
  unfold NodupKeys gridKeys at *
  exact h.sublist ((List.filter_sublist grid).map Prod.fst)

theorem groundedKeysOf_sub (grid : GridState) (fieldShape : FieldShape) :
    ∀ k ∈ groundedKeysOf grid fieldShape,
      k ∈ gridKeys (filledCellsOf grid) := by
  intro k hk
  exact classifyGrounded_sub (filledCellsOf grid) fieldShape k hk

theorem mem_floatingKeysOf (grid : GridState) (fieldShape : FieldShape)
    (k : AxialCoord) :
    k ∈ floatingKeysOf grid fieldShape ↔
      k ∈ gridKeys (filledCellsOf grid) ∧
        k ∉ groundedKeysOf grid fieldShape := by
  simp [floatingKeysOf, List.mem_filter, gridKeys]

theorem mem_floatingCellsOf (grid : GridState) (fieldShape : FieldShape)
    (p : AxialCoord × CellState) :
    p ∈ floatingCellsOf grid fieldShape ↔
      p ∈ filledCellsOf grid ∧ p.1 ∈ floatingKeysOf grid fieldShape := by
  simp [floatingCellsOf, List.mem_filter]

theorem mem_groundedCellsOf (grid : GridState) (fieldShape : FieldShape)
    (p : AxialCoord × CellState) :
    p ∈ groundedCellsOf grid fieldShape ↔
      p ∈ filledCellsOf grid ∧ p.1 ∈ groundedKeysOf grid fieldShape := by
  simp [groundedCellsOf, List.mem_filter]

theorem mem_keys_floatingCellsOf (grid : GridState) (fieldShape : FieldShape)
    (k : AxialCoord) :
    k ∈ (floatingCellsOf grid fieldShape).map Prod.fst ↔
      k ∈ floatingKeysOf grid fieldShape := by
  constructor
  · intro hm
    rcases List.mem_map.mp hm with ⟨p, hp, rfl⟩
    exact ((mem_floatingCellsOf grid fieldShape p).mp hp).2
  · intro hk
    have hky := ((mem_floatingKeysOf grid fieldShape k).mp hk).1
    rcases List.mem_map.mp hky with ⟨p, hp, rfl⟩
    refine List.mem_map.mpr ⟨p, ?_, rfl⟩
    exact (mem_floatingCellsOf grid fieldShape p).mpr ⟨hp, hk⟩

theorem filter_length_partition :
    ∀ (l : List (AxialCoord × CellState))
      (f g : AxialCoord × CellState → Bool),
      (∀ x ∈ l, g x = !f x) →
      (l.filter f).length + (l.filter g).length = l.length := by
  intro l
  induction l with
  | nil => intro f g _; simp
  | cons a rest ih =>
    intro f g hfg
    have ha := hfg a (List.mem_cons_self a rest)
    have hrest : ∀ x ∈ rest, g x = !f x :=
      fun x hx => hfg x (List.mem_cons_of_mem a hx)
    have hihyp := ih f g hrest
    rcases hf : f a with _ | _
    · have ha' : g a = true := by rw [ha, hf]; rfl
      simp only [List.filter_cons, hf, ha']
      simp
      omega
    · have ha' : g a = false := by rw [ha, hf]; rfl
      simp only [List.filter_cons, hf, ha']
      simp
      omega

theorem filled_partition_length (grid : GridState) (fieldShape : FieldShape) :
    (groundedCellsOf grid fieldShape).length +
      (floatingCellsOf grid fieldShape).length =
      (filledCellsOf grid).length := by
  unfold groundedCellsOf floatingCellsOf
  refine filter_length_partition (filledCellsOf grid) _ _ ?_
  intro x hx
  have hxk : x.1 ∈ gridKeys (filledCellsOf grid) :=
    List.mem_map.mpr ⟨x, hx, rfl⟩
  have hiff : x.1 ∈ floatingKeysOf grid fieldShape ↔
      ¬ (x.1 ∈ groundedKeysOf grid fieldShape) := by
    rw [mem_floatingKeysOf]
    exact ⟨fun h => h.2, fun h => ⟨hxk, h⟩⟩
  rw [← decide_not]
  exact decide_eq_decide.mpr hiff

theorem foldl_mapSet_eq_append :
    ∀ (l acc : GridState),
      (∀ p ∈ l, p.1 ∉ gridKeys acc) → NodupKeys l →
      l.foldl (fun g p => mapSet g p.1 p.2) acc = acc ++ l := by
  intro l
  induction l with
  | nil => intro acc _ _; simp
  | cons p rest ih =>
    intro acc hdisj hnd
    unfold NodupKeys at hnd
    rw [gridKeys] at hnd
    rw [List.map_cons] at hnd
    have hp : p.1 ∉ gridKeys acc := hdisj p (List.mem_cons_self p rest)
    rw [List.foldl_cons, mapSet_eq_append acc p.1 p.2 hp]
    have : (mapSet acc p.1 p.2 : GridState) = acc ++ [p] := by
      rw [mapSet_eq_append acc p.1 p.2 hp]
    rw [ih (acc ++ [p]) ?_ ?_]
    · rw [List.append_assoc]
      rfl
    · intro q hq hm
      rw [gridKeys_append] at hm
      rcases List.mem_append.mp hm with hm | hm
      · exact hdisj q (List.mem_cons_of_mem p hq) hm
      · simp [gridKeys] at hm
        exact (List.nodup_cons.mp hnd).1 (hm ▸ List.mem_map.mpr ⟨q, hq, rfl⟩)
    · exact (List.nodup_cons.mp hnd).2

theorem NodupKeys_groundedCellsOf (grid : GridState) (fieldShape : FieldShape)
    (h : NodupKeys grid) : NodupKeys (groundedCellsOf grid fieldShape) := by
  have h2 := NodupKeys_filledCellsOf grid h
  unfold NodupKeys gridKeys at *
  unfold groundedCellsOf
  exact h2.sublist ((List.filter_sublist (filledCellsOf grid)).map Prod.fst)

theorem baseGridOf_eq (grid : GridState) (fieldShape : FieldShape)
    (h : NodupKeys grid) :
    baseGridOf grid fieldShape = groundedCellsOf grid fieldShape := by
  unfold baseGridOf
  rw [foldl_mapSet_eq_append (groundedCellsOf grid fieldShape) [] (by simp [gridKeys])
    (NodupKeys_groundedCellsOf grid fieldShape h)]
  simp

theorem mem_keys_baseGridOf (grid : GridState) (fieldShape : FieldShape)
    (h : NodupKeys grid) (k : AxialCoord) :
    k ∈ gridKeys (baseGridOf grid fieldShape) ↔
      k ∈ groundedKeysOf grid fieldShape := by
  rw [baseGridOf_eq grid fieldShape h]
  constructor
  · intro hm
    rcases List.mem_map.mp hm with ⟨p, hp, rfl⟩
    exact ((mem_groundedCellsOf grid fieldShape p).mp hp).2
  · intro hk
    have hky := groundedKeysOf_sub grid fieldShape k hk
    rcases List.mem_map.mp hky with ⟨p, hp, rfl⟩
    refine List.mem_map.mpr ⟨p, ?_, rfl⟩
    exact (mem_groundedCellsOf grid fieldShape p).mpr ⟨hp, hk⟩

theorem sortedFloating_keys_nodup (grid : GridState) (fieldShape : FieldShape)
    (h : NodupKeys grid) :
    ((sortByRDesc (floatingCellsOf grid fieldShape)).map Prod.fst).Nodup := by
  have hperm := (sortByRDesc_perm (floatingCellsOf grid fieldShape)).map Prod.fst
  rw [hperm.nodup_iff]
  have h2 := NodupKeys_filledCellsOf grid h
  unfold NodupKeys gridKeys at h2
  unfold floatingCellsOf
  exact h2.sublist ((List.filter_sublist (filledCellsOf grid)).map Prod.fst)

theorem sortedFloating_disjoint (grid : GridState) (fieldShape : FieldShape)
    (h : NodupKeys grid) :
    ∀ p ∈ sortByRDesc (floatingCellsOf grid fieldShape),
      p.1 ∉ gridKeys (baseGridOf grid fieldShape) := by
  intro p hp hm
  have hpf := (sortByRDesc_perm (floatingCellsOf grid fieldShape)).mem_iff.mp hp
  have hfl := ((mem_floatingCellsOf grid fieldShape p).mp hpf).2
  have hng := ((mem_floatingKeysOf grid fieldShape p.1).mp hfl).2
  exact hng ((mem_keys_baseGridOf grid fieldShape h p.1).mp hm)

theorem baseGridOf_occ (grid : GridState) (fieldShape : FieldShape)
    (h : NodupKeys grid) :
    ∀ k, k ∈ groundedKeysOf grid fieldShape ↔
      k ∈ gridKeys (baseGridOf grid fieldShape) :=
  fun k => (mem_keys_baseGridOf grid fieldShape h k).symm

theorem mapGet_of_mem_nodup :
    ∀ (g : GridState) (k : AxialCoord) (v : CellState),
      NodupKeys g → (k, v) ∈ g → mapGet g k = some v := by
  intro g
  induction g with
  | nil => intro k v _ hm; simp at hm
  | cons p rest ih =>
    intro k v hnd hm
    unfold NodupKeys gridKeys at hnd
    rw [List.map_cons] at hnd
    rcases List.mem_cons.mp hm with he | hm
    · rw [← he, mapGet_cons, if_pos rfl]
    · rw [mapGet_cons]
      by_cases hp : p.1 = k
      · exfalso
        exact (List.nodup_cons.mp hnd).1
          (hp ▸ List.mem_map.mpr ⟨(k, v), hm, rfl⟩)
      · rw [if_neg hp]
        exact ih k v (List.nodup_cons.mp hnd).2 hm

theorem not_mem_filled_keys (grid : GridState) (h : NodupKeys grid)
    (x : AxialCoord) (hf : cellIsFilled grid x = false) :
    x ∉ gridKeys (filledCellsOf grid) := by
  intro hm
  rcases List.mem_map.mp hm with ⟨p, hp, rfl⟩
  rcases (mem_filledCellsOf grid p).mp hp with ⟨hpg, hpf⟩
  have hg := mapGet_of_mem_nodup grid p.1 p.2 h hpg
  unfold cellIsFilled at hf
  rw [hg] at hf
  have hff : p.2.isFilled = false := hf
  rw [hpf] at hff
  simp at hff

/-- C10 (implicit): one gravity step conserves blocks.  For every grid
with the Map key invariant whose filled cells lie in the field, the
output has exactly as many filled cells as the input, keys stay unique,
every output filled cell carries an input cell's unchanged state at the
same position or one row further down, and every input filled cell
survives at its position or one row further down. -/
theorem c10_gravity_conservation :
    ∀ (grid : GridState) (fieldShape : FieldShape), NodupKeys grid →
      (∀ p ∈ filledCellsOf grid, p.1 ∈ fieldShape) →
      (filledCellsOf (applyGravityStep grid fieldShape).1).length =
        (filledCellsOf grid).length ∧
      NodupKeys (applyGravityStep grid fieldShape).1 ∧
      (∀ k s, (k, s) ∈ filledCellsOf (applyGravityStep grid fieldShape).1 →
        (k, s) ∈ filledCellsOf grid ∨
          ∃ c, (c, s) ∈ filledCellsOf grid ∧ k = below c) ∧
      (∀ c s, (c, s) ∈ filledCellsOf grid →
        (c, s) ∈ filledCellsOf (applyGravityStep grid fieldShape).1 ∨
        (below c, s) ∈ filledCellsOf (applyGravityStep grid fieldShape).1) := by
  intro grid fieldShape hnd _hfield
  by_cases h1 : filledCellsOf grid = []
  · rw [applyGravityStep_no_filled grid fieldShape h1]
    exact ⟨rfl, hnd, fun k s hm => Or.inl hm, fun c s hm => Or.inl hm⟩
  · by_cases h2 : floatingCellsOf grid fieldShape = []
    · rw [applyGravityStep_no_floating grid fieldShape h2]
      exact ⟨rfl, hnd, fun k s hm => Or.inl hm, fun c s hm => Or.inl hm⟩
    · rw [applyGravityStep_main grid fieldShape h1 h2]
      have SPEC := processFloating_spec fieldShape
        (sortByRDesc (floatingCellsOf grid fieldShape))
        (baseGridOf grid fieldShape) (groundedKeysOf grid fieldShape)
        (sortedFloating_keys_nodup grid fieldShape hnd)
        (by rw [baseGridOf_eq grid fieldShape hnd]
            exact NodupKeys_groundedCellsOf grid fieldShape hnd)
        (sortedFloating_disjoint grid fieldShape hnd)
        (baseGridOf_occ grid fieldShape hnd)
        (sortByRDesc_sorted (floatingCellsOf grid fieldShape))
      have hperm := sortByRDesc_perm (floatingCellsOf grid fieldShape)
      have hfill : ∀ e ∈ (processFloating fieldShape
          (sortByRDesc (floatingCellsOf grid fieldShape))
          (baseGridOf grid fieldShape) (groundedKeysOf grid fieldShape)).1,
          e.2.isFilled = true := by
        intro e he
        rcases SPEC.2.2.2.1 e he with h | h | ⟨c, s, rfl, hc, _⟩
        · rw [baseGridOf_eq grid fieldShape hnd] at h
          have := ((mem_groundedCellsOf grid fieldShape e).mp h).1
          exact ((mem_filledCellsOf grid e).mp this).2
        · have := ((mem_floatingCellsOf grid fieldShape e).mp
            (hperm.mem_iff.mp h)).1
          exact ((mem_filledCellsOf grid e).mp this).2
        · have hc' := ((mem_floatingCellsOf grid fieldShape (c, s)).mp
            (hperm.mem_iff.mp hc)).1
          exact ((mem_filledCellsOf grid (c, s)).mp hc').2
      have heq : filledCellsOf (processFloating fieldShape
          (sortByRDesc (floatingCellsOf grid fieldShape))
          (baseGridOf grid fieldShape) (groundedKeysOf grid fieldShape)).1 =
          (processFloating fieldShape
            (sortByRDesc (floatingCellsOf grid fieldShape))
            (baseGridOf grid fieldShape)
            (groundedKeysOf grid fieldShape)).1 := by
        unfold filledCellsOf
        exact List.filter_eq_self.mpr hfill
      refine ⟨?_, SPEC.2.1, ?_, ?_⟩
      · rw [heq, SPEC.1, baseGridOf_eq grid fieldShape hnd,
          hperm.length_eq, filled_partition_length grid fieldShape]
      · intro k s hm
        rw [heq] at hm
        rcases SPEC.2.2.2.1 (k, s) hm with h | h | ⟨c, s2, he, hc, _⟩
        · rw [baseGridOf_eq grid fieldShape hnd] at h
          exact Or.inl ((mem_groundedCellsOf grid fieldShape (k, s)).mp h).1
        · exact Or.inl ((mem_floatingCellsOf grid fieldShape (k, s)).mp
            (hperm.mem_iff.mp h)).1
        · injection he with he1 he2
          subst he1
          subst he2
          refine Or.inr ⟨c, ?_, rfl⟩
          exact ((mem_floatingCellsOf grid fieldShape (c, s)).mp
            (hperm.mem_iff.mp hc)).1
      · intro c s hm
        rw [heq]
        by_cases hg : c ∈ groundedKeysOf grid fieldShape
        · refine Or.inl (SPEC.2.2.2.2.1 (c, s) ?_)
          rw [baseGridOf_eq grid fieldShape hnd]
          exact (mem_groundedCellsOf grid fieldShape (c, s)).mpr ⟨hm, hg⟩
        · have hkf : c ∈ floatingKeysOf grid fieldShape :=
            (mem_floatingKeysOf grid fieldShape c).mpr
              ⟨List.mem_map.mpr ⟨(c, s), hm, rfl⟩, hg⟩
          have hfc : (c, s) ∈ sortByRDesc (floatingCellsOf grid fieldShape) :=
            hperm.mem_iff.mpr
              ((mem_floatingCellsOf grid fieldShape (c, s)).mpr ⟨hm, hkf⟩)
          exact SPEC.2.2.2.2.2 c s hfc

/-- C10 witness: conservation on a concrete two-cell grid
(one floating cell above one grounded cell) on the test field. -/
theorem c10_gravity_conservation_witness :
    (filledCellsOf (applyGravityStep
      [(⟨2, 0⟩, redCell), (⟨2, 4⟩, redCell)] TEST_FIELD).1).length =
      (filledCellsOf
        [((⟨2, 0⟩ : AxialCoord), redCell), (⟨2, 4⟩, redCell)]).length :=
  (c10_gravity_conservation [(⟨2, 0⟩, redCell), (⟨2, 4⟩, redCell)] TEST_FIELD
    (by unfold NodupKeys gridKeys; decide) (by decide)).1

/-- C3: a filled cell is grounded iff there is no field cell directly
below it or the filled cell directly below it is grounded (propagation is
strictly vertical); a floating cell whose below-target is in the field
and not filled moves down one row in the step; and a single filled cell
at (2, 0) on the 5-by-6 test field settles at (2, 4). -/
theorem c3_independent_gravity :
    (∀ (cells : List (AxialCoord × CellState)) (fieldShape : FieldShape)
      (p : AxialCoord × CellState), p ∈ cells →
      (p.1 ∈ classifyGrounded cells fieldShape ↔
        below p.1 ∉ fieldShape ∨
          (below p.1 ∈ cells.map Prod.fst ∧
           below p.1 ∈ classifyGrounded cells fieldShape))) ∧
    (∀ (grid : GridState) (fieldShape : FieldShape) (k : AxialCoord)
      (s : CellState), NodupKeys grid →
      (k, s) ∈ filledCellsOf grid →
      k ∉ groundedKeysOf grid fieldShape →
      below k ∈ fieldShape →
      cellIsFilled grid (below k) = false →
      mapGet (applyGravityStep grid fieldShape).1 (below k) = some s) ∧
    applyGravityUntilSettled 20 [(⟨2, 0⟩, redCell)] TEST_FIELD =
      [(⟨2, 4⟩, redCell)] := by
  refine ⟨classifyGrounded_iff, ?_, by decide⟩
  intro grid fieldShape k s hnd hkfc hkg hbf hbfill
  have h1 : filledCellsOf grid ≠ [] := by
    intro he
    rw [he] at hkfc
    simp at hkfc
  have hkfl : k ∈ floatingKeysOf grid fieldShape :=
    (mem_floatingKeysOf grid fieldShape k).mpr
      ⟨List.mem_map.mpr ⟨(k, s), hkfc, rfl⟩, hkg⟩
  have hkfcell : (k, s) ∈ floatingCellsOf grid fieldShape :=
    (mem_floatingCellsOf grid fieldShape (k, s)).mpr ⟨hkfc, hkfl⟩
  have h2 : floatingCellsOf grid fieldShape ≠ [] := by
    intro he
    rw [he] at hkfcell
    simp at hkfcell
  rw [applyGravityStep_main grid fieldShape h1 h2]
  have hperm := sortByRDesc_perm (floatingCellsOf grid fieldShape)
  have hbnotfilled := not_mem_filled_keys grid hnd (below k) hbfill
  refine processFloating_moves fieldShape _ _ _ k s
    (sortedFloating_keys_nodup grid fieldShape hnd)
    (hperm.mem_iff.mpr hkfcell) hbf ?_ ?_
  · intro hm
    exact hbnotfilled (groundedKeysOf_sub grid fieldShape (below k) hm)
  · intro hm
    rcases List.mem_map.mp hm with ⟨p, hp, he⟩
    have hpfl := ((mem_floatingCellsOf grid fieldShape p).mp
      (hperm.mem_iff.mp hp)).2
    have := ((mem_floatingKeysOf grid fieldShape p.1).mp hpfl).1
    rw [he] at this
    exact hbnotfilled this

/-- C3 witness: the grounded characterization and the move rule applied
to the concrete one-cell grid on the test field (the cell at (2, 0) is
not grounded and moves to (2, 1) in the first step). -/
theorem c3_independent_gravity_witness :
    mapGet (applyGravityStep [(⟨2, 0⟩, redCell)] TEST_FIELD).1 ⟨2, 1⟩ =
      some redCell :=
  c3_independent_gravity.2.1 [(⟨2, 0⟩, redCell)] TEST_FIELD ⟨2, 0⟩ redCell
    (by unfold NodupKeys gridKeys; decide) (by decide) (by decide)
    (by decide) (by decide)

/-- C7: once applyGravityStep reports moved = false, a further call on
its output grid also reports moved = false. -/
theorem c7_gravity_idempotent :
    ∀ (grid : GridState) (fieldShape : FieldShape), NodupKeys grid →
      (applyGravityStep grid fieldShape).2 = false →
      (applyGravityStep (applyGravityStep grid fieldShape).1 fieldShape).2 =
        false := by
  intro grid fieldShape hnd hflag
  by_cases h1 : filledCellsOf grid = []
  · rw [applyGravityStep_no_filled grid fieldShape h1]
    rw [applyGravityStep_no_filled grid fieldShape h1]
  · by_cases h2 : floatingCellsOf grid fieldShape = []
    · rw [applyGravityStep_no_floating grid fieldShape h2]
      rw [applyGravityStep_no_floating grid fieldShape h2]
    · have hmain := applyGravityStep_main grid fieldShape h1 h2
      have hflag' : (processFloating fieldShape
          (sortByRDesc (floatingCellsOf grid fieldShape))
          (baseGridOf grid fieldShape)
          (groundedKeysOf grid fieldShape)).2.2 = false := by
        rw [hmain] at hflag
        exact hflag
      have hout : (applyGravityStep grid fieldShape).1 =
          (processFloating fieldShape
            (sortByRDesc (floatingCellsOf grid fieldShape))
            (baseGridOf grid fieldShape)
            (groundedKeysOf grid fieldShape)).1 := by
        rw [hmain]
      rw [hout]
      have hperm := sortByRDesc_perm (floatingCellsOf grid fieldShape)
      have hentries := processFloating_nomove_entries fieldShape
        (sortByRDesc (floatingCellsOf grid fieldShape))
        (baseGridOf grid fieldShape) (groundedKeysOf grid fieldShape)
        (sortedFloating_keys_nodup grid fieldShape hnd)
        (sortedFloating_disjoint grid fieldShape hnd) hflag'
      have hent : ∀ e, e ∈ (processFloating fieldShape
          (sortByRDesc (floatingCellsOf grid fieldShape))
          (baseGridOf grid fieldShape)
          (groundedKeysOf grid fieldShape)).1 ↔
          e ∈ groundedCellsOf grid fieldShape ∨
            e ∈ floatingCellsOf grid fieldShape := by
        intro e
        rw [hentries e, baseGridOf_eq grid fieldShape hnd, hperm.mem_iff]
      have hfill : ∀ e ∈ (processFloating fieldShape
          (sortByRDesc (floatingCellsOf grid fieldShape))
          (baseGridOf grid fieldShape)
          (groundedKeysOf grid fieldShape)).1, e.2.isFilled = true := by
        intro e he
        rcases (hent e).mp he with h | h
        · exact ((mem_filledCellsOf grid e).mp
            ((mem_groundedCellsOf grid fieldShape e).mp h).1).2
        · exact ((mem_filledCellsOf grid e).mp
            ((mem_floatingCellsOf grid fieldShape e).mp h).1).2
      have hfeq : filledCellsOf (processFloating fieldShape
          (sortByRDesc (floatingCellsOf grid fieldShape))
          (baseGridOf grid fieldShape)
          (groundedKeysOf grid fieldShape)).1 =
          (processFloating fieldShape
            (sortByRDesc (floatingCellsOf grid fieldShape))
            (baseGridOf grid fieldShape)
            (groundedKeysOf grid fieldShape)).1 := by
        unfold filledCellsOf
        exact List.filter_eq_self.mpr hfill
      have hkeys : ∀ x, x ∈ gridKeys (filledCellsOf (processFloating fieldShape
          (sortByRDesc (floatingCellsOf grid fieldShape))
          (baseGridOf grid fieldShape)
          (groundedKeysOf grid fieldShape)).1) ↔
          x ∈ gridKeys (filledCellsOf grid) := by
        intro x
        rw [hfeq]
        constructor
        · intro hm
          rcases List.mem_map.mp hm with ⟨e, he, rfl⟩
          rcases (hent e).mp he with h | h
          · exact List.mem_map.mpr
              ⟨e, ((mem_groundedCellsOf grid fieldShape e).mp h).1, rfl⟩
          · exact List.mem_map.mpr
              ⟨e, ((mem_floatingCellsOf grid fieldShape e).mp h).1, rfl⟩
        · intro hm
          rcases List.mem_map.mp hm with ⟨p, hp, rfl⟩
          by_cases hg : p.1 ∈ groundedKeysOf grid fieldShape
          · exact List.mem_map.mpr ⟨p, (hent p).mpr
              (Or.inl ((mem_groundedCellsOf grid fieldShape p).mpr ⟨hp, hg⟩)), rfl⟩
          · have hkf : p.1 ∈ floatingKeysOf grid fieldShape :=
              (mem_floatingKeysOf grid fieldShape p.1).mpr
                ⟨List.mem_map.mpr ⟨p, hp, rfl⟩, hg⟩
            exact List.mem_map.mpr ⟨p, (hent p).mpr
              (Or.inr ((mem_floatingCellsOf grid fieldShape p).mpr ⟨hp, hkf⟩)), rfl⟩
      have hGcongr := classifyGrounded_congr
        (filledCellsOf (processFloating fieldShape
          (sortByRDesc (floatingCellsOf grid fieldShape))
          (baseGridOf grid fieldShape)
          (groundedKeysOf grid fieldShape)).1)
        (filledCellsOf grid) fieldShape hkeys
      have hblocked1 := processFloating_nomove_blocked fieldShape
        (sortByRDesc (floatingCellsOf grid fieldShape))
        (baseGridOf grid fieldShape) (groundedKeysOf grid fieldShape) hflag'
      have hocc1 := processFloating_nomove_occ fieldShape
        (sortByRDesc (floatingCellsOf grid fieldShape))
        (baseGridOf grid fieldShape) (groundedKeysOf grid fieldShape) hflag'
      by_cases h1b : filledCellsOf (processFloating fieldShape
          (sortByRDesc (floatingCellsOf grid fieldShape))
          (baseGridOf grid fieldShape)
          (groundedKeysOf grid fieldShape)).1 = []
      · rw [applyGravityStep_no_filled _ fieldShape h1b]
      · by_cases h2b : floatingCellsOf (processFloating fieldShape
            (sortByRDesc (floatingCellsOf grid fieldShape))
            (baseGridOf grid fieldShape)
            (groundedKeysOf grid fieldShape)).1 fieldShape = []
        · rw [applyGravityStep_no_floating _ fieldShape h2b]
        · rw [applyGravityStep_main _ fieldShape h1b h2b]
          refine processFloating_blocked_nomove fieldShape _ _ _
            (sortByRDesc_sorted _) ?_
          intro p hp
          have hperm2 := sortByRDesc_perm (floatingCellsOf
            (processFloating fieldShape
              (sortByRDesc (floatingCellsOf grid fieldShape))
              (baseGridOf grid fieldShape)
              (groundedKeysOf grid fieldShape)).1 fieldShape)
          have hpfl2 := (mem_floatingCellsOf _ fieldShape p).mp
            (hperm2.mem_iff.mp hp)
          have hpk2 := (mem_floatingKeysOf _ fieldShape p.1).mp hpfl2.2
          have hpkeys1 : p.1 ∈ gridKeys (filledCellsOf grid) :=
            (hkeys p.1).mp hpk2.1
          have hpg1 : p.1 ∉ groundedKeysOf grid fieldShape := by
            intro hg
            refine hpk2.2 ?_
            have hq := classifyGrounded_congr (filledCellsOf grid)
              (filledCellsOf (processFloating fieldShape
                (sortByRDesc (floatingCellsOf grid fieldShape))
                (baseGridOf grid fieldShape)
                (groundedKeysOf grid fieldShape)).1) fieldShape
              (fun y => (hkeys y).symm) p.1
            exact hq.mp hg
          by_cases hbf : below p.1 ∈ fieldShape
          · have hpfk1 : p.1 ∈ floatingKeysOf grid fieldShape :=
              (mem_floatingKeysOf grid fieldShape p.1).mpr ⟨hpkeys1, hpg1⟩
            have hqfl : p.1 ∈ (floatingCellsOf grid fieldShape).map Prod.fst :=
              (mem_keys_floatingCellsOf grid fieldShape p.1).mpr hpfk1
            rcases List.mem_map.mp hqfl with ⟨q, hq, hqe⟩
            have hqsrt : q ∈ sortByRDesc (floatingCellsOf grid fieldShape) :=
              hperm.mem_iff.mpr hq
            have hbocc := hblocked1 q hqsrt (by rw [hqe]; exact hbf)
            rw [hocc1 (below q.1)] at hbocc
            rw [hqe] at hbocc
            rcases hbocc with hG | hsrtk
            · exact Or.inr (Or.inl ((hGcongr (below p.1)).mpr hG))
            · have hflk1 : below p.1 ∈ floatingKeysOf grid fieldShape := by
                rcases List.mem_map.mp hsrtk with ⟨q2, hq2, hq2e⟩
                have hq2fl := hperm.mem_iff.mp hq2
                rw [← hq2e]
                exact ((mem_floatingCellsOf grid fieldShape q2).mp hq2fl).2
              have hch := (mem_floatingKeysOf grid fieldShape
                (below p.1)).mp hflk1
              have hfk2 : below p.1 ∈ floatingKeysOf (processFloating fieldShape
                  (sortByRDesc (floatingCellsOf grid fieldShape))
                  (baseGridOf grid fieldShape)
                  (groundedKeysOf grid fieldShape)).1 fieldShape := by
                refine (mem_floatingKeysOf _ fieldShape (below p.1)).mpr
                  ⟨(hkeys (below p.1)).mpr hch.1, ?_⟩
                intro hg2
                exact hch.2 ((hGcongr (below p.1)).mp hg2)
              have : below p.1 ∈ (floatingCellsOf (processFloating fieldShape
                  (sortByRDesc (floatingCellsOf grid fieldShape))
                  (baseGridOf grid fieldShape)
                  (groundedKeysOf grid fieldShape)).1 fieldShape).map
                    Prod.fst :=
                (mem_keys_floatingCellsOf _ fieldShape (below p.1)).mpr hfk2
              refine Or.inr (Or.inr ?_)
              rcases List.mem_map.mp this with ⟨q3, hq3, hq3e⟩
              exact List.mem_map.mpr ⟨q3, hperm2.mem_iff.mpr hq3, hq3e⟩
          · exact Or.inl hbf

/-- C7 witness: idempotence applied to the concrete settled one-cell grid
at the bottom of the test field. -/
theorem c7_gravity_idempotent_witness :
    (applyGravityStep
      (applyGravityStep [(⟨2, 4⟩, redCell)] TEST_FIELD).1 TEST_FIELD).2 =
      false :=
  c7_gravity_idempotent [(⟨2, 4⟩, redCell)] TEST_FIELD
    (by unfold NodupKeys gridKeys; decide) (by decide)

theorem mapGet_isSome_iff (g : GridState) (k : AxialCoord) :
    (mapGet g k).isSome = true ↔ k ∈ gridKeys g := by
  induction g with
  | nil => simp [mapGet, gridKeys]
  | cons p rest ih =>
    rw [mapGet_cons]
    by_cases hp : p.1 = k
    · simp [hp, gridKeys]
    · rw [if_neg hp]
      simp only [gridKeys, List.map_cons, List.mem_cons]
      rw [ih]
      constructor
      · intro h
        exact Or.inr h
      · rintro (h | h)
        · exact absurd h.symm hp
        · exact h
      -- gridKeys unfolding note: ih is stated over gridKeys rest

theorem gridKeys_mapSet_of_mem (g : GridState) (k : AxialCoord)
    (v : CellState) (h : k ∈ gridKeys g) :
    gridKeys (mapSet g k v) = gridKeys g := by
  induction g with
  | nil => simp [gridKeys] at h
  | cons p rest ih =>
    rw [mapSet_cons]
    by_cases hp : p.1 = k
    · rw [if_pos hp]
      simp [gridKeys, hp]
    · rw [if_neg hp]
      have hk : k ∈ gridKeys rest := by
        simp only [gridKeys, List.map_cons, List.mem_cons] at h
        rcases h with h | h
        · exact absurd h.symm hp
        · exact h
      simp only [gridKeys, List.map_cons]
      have hihk := ih hk
      unfold gridKeys at hihk
      rw [hihk]

theorem processFrozenCells_keys (batch : List AxialCoord) :
    ∀ (grid : GridState) (k : AxialCoord),
      k ∈ gridKeys (processFrozenCells grid batch).2 ↔ k ∈ gridKeys grid := by
  induction batch with
  | nil => intro grid k; exact Iff.rfl
  | cons c rest ih =>
    intro grid k
    cases hc : mapGet grid c with
    | none =>
      rw [processFrozenCells_cons_none grid c rest hc]
      exact ih grid k
    | some s =>
      cases s with
      | empty =>
        rw [processFrozenCells_cons_empty grid c rest hc]
        exact ih grid k
      | filled color special fc clr =>
        by_cases hfr : special = some .frozen ∧ fc = false
        · rcases hfr with ⟨hs, hf⟩
          subst hs; subst hf
          rw [processFrozenCells_cons_fresh grid c rest color clr hc]
          rw [ih _ k]
          have hcm : c ∈ gridKeys grid :=
            (mapGet_isSome_iff grid c).mp (by rw [hc]; rfl)
          rw [gridKeys_mapSet_of_mem grid c _ hcm]
        · rw [processFrozenCells_cons_other grid c rest color special fc clr hc hfr]
          exact ih grid k

theorem keys_foldl_mapDelete_sub (rm : List AxialCoord) (g : GridState)
    (k : AxialCoord) (h : k ∈ gridKeys (rm.foldl mapDelete g)) :
    k ∈ gridKeys g := by
  have h1 := (mapGet_isSome_iff (rm.foldl mapDelete g) k).mpr h
  rw [mapGet_foldl_mapDelete] at h1
  by_cases hm : k ∈ rm
  · rw [if_pos hm] at h1
    simp at h1
  · rw [if_neg hm] at h1
    exact (mapGet_isSome_iff g k).mp h1

theorem keys_applyBombExplosions_sub (grid : GridState)
    (bombCells : List AxialCoord) (fieldShape : FieldShape) (k : AxialCoord)
    (h : k ∈ gridKeys (applyBombExplosions grid bombCells fieldShape)) :
    k ∈ gridKeys grid := by
  unfold applyBombExplosions at h
  by_cases hb : bombCells = []
  · rw [if_pos hb] at h
    exact h
  · rw [if_neg hb] at h
    exact keys_foldl_mapDelete_sub _ grid k h

theorem maybeSpawnSpecialCell_keys (grid : GridState)
    (fieldShape : FieldShape) (level : Nat) (r1 r2 : ℚ) (idx : Nat) :
    ∀ k, k ∈ gridKeys
        (maybeSpawnSpecialCell grid fieldShape level r1 r2 idx) ↔
      k ∈ gridKeys grid := by
  intro k
  unfold maybeSpawnSpecialCell
  dsimp only
  split
  · exact Iff.rfl
  · split
    · exact Iff.rfl
    · split
      · exact Iff.rfl
      · split
        · exact Iff.rfl
        · rename_i selectedKey _
          split
          · rename_i color special fc clr heq
            have hm : selectedKey ∈ gridKeys grid :=
              (mapGet_isSome_iff grid selectedKey).mp (by rw [heq]; rfl)
            rw [gridKeys_mapSet_of_mem grid selectedKey _ hm]
          · exact Iff.rfl

/-- C2 counterexample: the key set is not preserved.  On the test field,
a grid whose key set equals the field's key set (29 Empty entries plus
one filled floating cell) is mapped by applyGravityStep to a grid whose
key set no longer equals the field's keys (the Empty entries are
dropped). -/
theorem c2_grid_keys_counterexample :
    gridKeys fullKeyGrid = TEST_FIELD ∧
    sameCellSet (gridKeys (applyGravityStep fullKeyGrid TEST_FIELD).1)
      TEST_FIELD = false := by
  constructor
  · decide
  · decide

/-- C2 (amended): empty cells are represented as missing keys, so the
operations do not keep the key set equal to the Field's keys.  Instead,
for every grid with the Map key invariant whose keys lie in the field,
line clearing (before and after bombs) and one gravity step keep the key
set inside the field's keys, and special-cell promotion preserves the key
set exactly. -/
theorem c2_grid_keys :
    ∀ (grid : GridState) (fieldShape : FieldShape) (lines : List Line)
      (level : Nat) (r1 r2 : ℚ) (idx : Nat),
      NodupKeys grid →
      (∀ k ∈ gridKeys grid, k ∈ fieldShape) →
      (∀ k ∈ gridKeys (clearLines grid lines fieldShape).gridAfterLineClear,
        k ∈ fieldShape) ∧
      (∀ k ∈ gridKeys (clearLines grid lines fieldShape).gridAfterBombs,
        k ∈ fieldShape) ∧
      (∀ k ∈ gridKeys (applyGravityStep grid fieldShape).1, k ∈ fieldShape) ∧
      (∀ k, k ∈ gridKeys
          (maybeSpawnSpecialCell grid fieldShape level r1 r2 idx) ↔
        k ∈ gridKeys grid) := by
  intro grid fieldShape lines level r1 r2 idx hnd hsub
  have hglc : ∀ k ∈ gridKeys (clearLines grid lines
      fieldShape).gridAfterLineClear, k ∈ fieldShape := by
    intro k hk
    rw [clearLines_gridAfterLineClear] at hk
    have h2 := keys_foldl_mapDelete_sub _ _ k hk
    rw [processFrozenCells_keys (linesBatch lines) grid k] at h2
    exact hsub k h2
  refine ⟨hglc, ?_, ?_, maybeSpawnSpecialCell_keys grid fieldShape level r1 r2 idx⟩
  · intro k hk
    have h1 : (clearLines grid lines fieldShape).gridAfterBombs =
        applyBombExplosions (clearLines grid lines fieldShape).gridAfterLineClear
          (clearLinesBombCells grid lines) fieldShape := rfl
    rw [h1] at hk
    exact hglc k (keys_applyBombExplosions_sub _ _ fieldShape k hk)
  · intro k hk
    by_cases h1 : filledCellsOf grid = []
    · rw [applyGravityStep_no_filled grid fieldShape h1] at hk
      exact hsub k hk
    · by_cases h2 : floatingCellsOf grid fieldShape = []
      · rw [applyGravityStep_no_floating grid fieldShape h2] at hk
        exact hsub k hk
      · rw [applyGravityStep_main grid fieldShape h1 h2] at hk
        have SPEC := processFloating_spec fieldShape
          (sortByRDesc (floatingCellsOf grid fieldShape))
          (baseGridOf grid fieldShape) (groundedKeysOf grid fieldShape)
          (sortedFloating_keys_nodup grid fieldShape hnd)
          (by rw [baseGridOf_eq grid fieldShape hnd]
              exact NodupKeys_groundedCellsOf grid fieldShape hnd)
          (sortedFloating_disjoint grid fieldShape hnd)
          (baseGridOf_occ grid fieldShape hnd)
          (sortByRDesc_sorted (floatingCellsOf grid fieldShape))
        have hperm := sortByRDesc_perm (floatingCellsOf grid fieldShape)
        rcases List.mem_map.mp hk with ⟨e, he, rfl⟩
        rcases SPEC.2.2.2.1 e he with h | h | ⟨c, s2, rfl, _, hbf⟩
        · rw [baseGridOf_eq grid fieldShape hnd] at h
          have := ((mem_filledCellsOf grid e).mp
            ((mem_groundedCellsOf grid fieldShape e).mp h).1).1
          exact hsub e.1 (List.mem_map.mpr ⟨e, this, rfl⟩)
        · have := ((mem_filledCellsOf grid e).mp
            ((mem_floatingCellsOf grid fieldShape e).mp
              (hperm.mem_iff.mp h)).1).1
          exact hsub e.1 (List.mem_map.mpr ⟨e, this, rfl⟩)
        · exact hbf

/-- C2 witness: the amended claim applied to the full-key test grid,
instantiated at the key (2, 0). -/
theorem c2_grid_keys_witness :
    (⟨2, 0⟩ : AxialCoord) ∈
        gridKeys (maybeSpawnSpecialCell fullKeyGrid TEST_FIELD 1 0 0 0) ↔
      (⟨2, 0⟩ : AxialCoord) ∈ gridKeys fullKeyGrid :=
  (c2_grid_keys fullKeyGrid TEST_FIELD [] 1 0 0 0
    (by unfold NodupKeys gridKeys; decide) (by decide)).2.2.2 ⟨2, 0⟩

/-- C5 witness: the bomb-phase characterization applied to the concrete
single-line clear on the test field. -/
theorem c5_bomb_explosions_witness :
    mapGet (clearLines singleLineGrid
      (detectLines singleLineGrid TEST_FIELD) TEST_FIELD).gridAfterBombs
        ⟨2, 1⟩ =
      (if (⟨2, 1⟩ : AxialCoord) ∈ (clearLines singleLineGrid
          (detectLines singleLineGrid TEST_FIELD)
          TEST_FIELD).bombExplosionCells then none
       else mapGet (clearLines singleLineGrid
          (detectLines singleLineGrid TEST_FIELD)
          TEST_FIELD).gridAfterLineClear ⟨2, 1⟩) :=
  (c5_bomb_explosions singleLineGrid
    (detectLines singleLineGrid TEST_FIELD) TEST_FIELD).1 ⟨2, 1⟩

/-- C9 witness: the rejection characterization applied to a concrete
piece on the empty test grid. -/
theorem c9_collision_validity_witness :
    moveDown testPiece [] TEST_FIELD = none ↔
      ¬ isValidPiecePosition (moveDownCandidate testPiece) [] TEST_FIELD =
        .valid :=
  c9_collision_validity.2.2.1 testPiece [] TEST_FIELD

end Hextris
